import Mathlib

/-!
# `stretch_buffer` (vector.cpp): a shallow embedding

The C++ struct `stretch_buffer<TType>` keeps two `size_t` fields, `count` and
`capacity`, and two raw pointers, `data` and `data_end`; `data` points to a
block obtained from `realloc`.

Modelling choices, all taken from the source text:

* `size_t` and pointers are 64 bits wide. A pointer is its byte address, and
  every `size_t` or pointer expression of the source (`sizeof(TType)*new_size`,
  `capacity + capacity/2`, `data + k`) is reduced modulo `SIZE_MOD`.
* The element type enters through an environment `Env`: its size in bytes,
  the implicit conversion from `size_t` to it, and the allocator's choice of
  address for a block.
* `realloc(ptr, byte_size)` succeeds exactly for requests of at most
  `PTRDIFF_MAX` bytes and then hands out a block that holds
  `byte_size / sizeof(TType)` whole elements and lies inside the address
  space; a larger request returns `NULL`, which the source stores unchecked.
* The content of the block `data` points to is a list of slots. A slot that
  `realloc` handed out and nobody wrote yet has an indeterminate value.
* Reading or writing through a pointer that does not address a slot of the
  block is undefined behaviour; the model returns `none` there.
* Member functions that return a value and may touch `this` return the value
  together with the buffer.
-/

set_option autoImplicit false

/-- Number of values of `size_t` and of a pointer (64-bit target). -/
def SIZE_MOD : Nat := 2 ^ 64

/-- Largest byte size of an object; `realloc` refuses larger requests. -/
def PTRDIFF_MAX : Nat := 2 ^ 63 - 1

/-- Content of one element slot of the owned block. -/
inductive Slot (T : Type) where
  | indeterminate : Slot T
  | holds (x : T) : Slot T
  deriving DecidableEq, Repr

/-- What the template argument `TType` and the C library contribute:
`elem_size` is `sizeof(TType)`, `conv` the implicit conversion from `size_t`
to `TType`, and `place ptr n` the address `realloc(ptr, n)` returns when it
succeeds; such a block lies inside the address space. -/
structure Env (T : Type) where
  elem_size : Nat
  conv : Nat → T
  place : Nat → Nat → Nat
  elem_size_pos : 0 < elem_size
  place_fits : ∀ ptr n, n ≤ PTRDIFF_MAX → place ptr n + n < SIZE_MOD

/-- The fields of `struct stretch_buffer`, in the order of the source: `data`
and `data_end` are pointer values (byte addresses, `0` is `NULL`). `block` is
not a field: it is the content of the heap block `data` points to. -/
structure stretch_buffer (T : Type) where
  count : Nat
  capacity : Nat
  data : Nat
  data_end : Nat
  block : List (Slot T)
  deriving DecidableEq, Repr

/-- The library call `realloc(ptr, byte_size)`: the returned pointer and the
content of the block it points to. The first slots keep their content, added
slots are indeterminate; a refused request returns `NULL`. -/
def realloc {T : Type} (E : Env T) (ptr : Nat) (block : List (Slot T)) (byte_size : Nat) :
    Nat × List (Slot T) :=
  if byte_size ≤ PTRDIFF_MAX then
    (E.place ptr byte_size,
     block.take (byte_size / E.elem_size) ++
       List.replicate (byte_size / E.elem_size - block.length) Slot.indeterminate)
  else
    (0, [])

/-- Transcription of `void reallocate(size_t new_size)`. -/
def stretch_buffer.reallocate {T : Type} (E : Env T) (b : stretch_buffer T) (new_size : Nat) :
    stretch_buffer T :=
  let byte_size := (E.elem_size * new_size) % SIZE_MOD
  let r := realloc E b.data b.block byte_size
  let b1 := { b with data := r.1, block := r.2 }
  let b2 := { b1 with capacity := new_size }
  { b2 with data_end := (b2.data + E.elem_size * new_size) % SIZE_MOD }

/-- Transcription of the constructor `stretch_buffer(size_t initial_size)`. -/
def stretch_buffer.ctor {T : Type} (E : Env T) (initial_size : Nat) : stretch_buffer T :=
  let b : stretch_buffer T :=
    { count := 0, capacity := 0, data := 0, data_end := 0, block := [] }
  let b1 := b.reallocate E (if initial_size < 2 then 2 else initial_size)
  { b1 with count := initial_size }

/-- Transcription of `TType * begin()`: the pointer `data`. -/
def stretch_buffer.begin {T : Type} (b : stretch_buffer T) : Nat × stretch_buffer T :=
  (b.data, b)

/-- Transcription of `TType * end()`: the pointer `data + count`. -/
def stretch_buffer.end_ {T : Type} (E : Env T) (b : stretch_buffer T) :
    Nat × stretch_buffer T :=
  ((b.data + E.elem_size * b.count) % SIZE_MOD, b)

/-- Transcription of `TType size()`: `count` converted to the element type by
the implicit conversion of the return statement. -/
def stretch_buffer.size {T : Type} (E : Env T) (b : stretch_buffer T) :
    T × stretch_buffer T :=
  (E.conv b.count, b)

/-- Implicit conversion of a `size_t` to `int` (32-bit two's complement), the
element type of every buffer in the source file. -/
def int_of_size_t (n : Nat) : Int :=
  ((n : Int) + 2 ^ 31) % 2 ^ 32 - 2 ^ 31

/-- Implicit conversion of a `size_t` to `unsigned char` (8 bits), for a
buffer instantiated as `stretch_buffer<unsigned char>`. -/
def uchar_of_size_t (n : Nat) : Nat :=
  n % 2 ^ 8

/-- Implicit conversion of a `size_t` to `long long` (64-bit two's
complement), for a buffer instantiated as `stretch_buffer<long long>`. -/
def llong_of_size_t (n : Nat) : Int :=
  ((n : Int) + 2 ^ 63) % 2 ^ 64 - 2 ^ 63

/-- The instantiation `stretch_buffer<int>` with an allocator that hands out
every block at address `4096`. -/
def int_env : Env Int where
  elem_size := 4
  conv := int_of_size_t
  place := fun _ _ => 4096
  elem_size_pos := by decide
  place_fits := by
    intro _ n h
    simp only [PTRDIFF_MAX, SIZE_MOD] at *
    omega

/-- The instantiation `stretch_buffer<unsigned char>`, same allocator. -/
def uchar_env : Env Nat where
  elem_size := 1
  conv := uchar_of_size_t
  place := fun _ _ => 4096
  elem_size_pos := by decide
  place_fits := by
    intro _ n h
    simp only [PTRDIFF_MAX, SIZE_MOD] at *
    omega

/-- The instantiation `stretch_buffer<long long>`, same allocator. -/
def llong_env : Env Int where
  elem_size := 8
  conv := llong_of_size_t
  place := fun _ _ => 4096
  elem_size_pos := by decide
  place_fits := by
    intro _ n h
    simp only [PTRDIFF_MAX, SIZE_MOD] at *
    omega

/-- Transcription of `TType & operator[](size_t index)`: the reference
`data[index]`, that is the pointer `data + index`, without any check. -/
def stretch_buffer.operator_index {T : Type} (E : Env T) (b : stretch_buffer T)
    (index : Nat) : Nat :=
  (b.data + E.elem_size * index) % SIZE_MOD

/-- Transcription of `TType & at(size_t index)`: the pointer `data + index`
when it compares below `data_end`, the thrown string literal otherwise. -/
def stretch_buffer.at_ {T : Type} (E : Env T) (b : stretch_buffer T) (index : Nat) :
    Except String Nat :=
  let target := (b.data + E.elem_size * index) % SIZE_MOD
  if target < b.data_end then
    Except.ok target
  else
    Except.error "error"

/-- The slot of the owned block that the pointer `target` addresses, if any. -/
def stretch_buffer.slot_of {T : Type} (E : Env T) (b : stretch_buffer T) (target : Nat) :
    Option Nat :=
  if b.data ≤ target ∧ (target - b.data) % E.elem_size = 0 ∧
      (target - b.data) / E.elem_size < b.block.length then
    some ((target - b.data) / E.elem_size)
  else
    none

/-- Read through a pointer (`x = *target`). -/
def stretch_buffer.load {T : Type} (E : Env T) (b : stretch_buffer T) (target : Nat) :
    Option (Slot T) :=
  (b.slot_of E target).bind (fun i => b.block[i]?)

/-- Write through a pointer (`*target = value`). -/
def stretch_buffer.store {T : Type} (E : Env T) (b : stretch_buffer T) (target : Nat)
    (value : T) : Option (stretch_buffer T) :=
  (b.slot_of E target).map (fun i => { b with block := b.block.set i (Slot.holds value) })

/-- Transcription of `void push_back(TType value)`. -/
def stretch_buffer.push_back {T : Type} (E : Env T) (b : stretch_buffer T) (value : T) :
    Option (stretch_buffer T) :=
  let target := (b.data + E.elem_size * b.count) % SIZE_MOD
  if target = b.data_end then
    let new_capacity := (b.capacity + b.capacity / 2) % SIZE_MOD
    let b1 := b.reallocate E new_capacity
    b1.store E ((b1.data + E.elem_size * b1.count) % SIZE_MOD) value
  else
    b.store E target value

/-- The loop `for (v : values) buffer.push_back(v);`, stopping at the first
call with undefined behaviour. -/
def push_back_all {T : Type} (E : Env T) (b : stretch_buffer T) :
    List T → Option (stretch_buffer T)
  | [] => some b
  | v :: vs => (b.push_back E v).bind (fun b1 => push_back_all E b1 vs)

/-- The loop `for (i = first; i < first + n; i++) buffer[i] = f(i);`. -/
def fill_by_index {T : Type} (E : Env T) (f : Nat → T) (b : stretch_buffer T) (first : Nat) :
    Nat → Option (stretch_buffer T)
  | 0 => some b
  | n + 1 =>
    (b.store E (b.operator_index E first) (f first)).bind
      (fun b1 => fill_by_index E f b1 (first + 1) n)

/-- The loop `for (p = first; n steps; ++p) visit(*p);`: the slots visited. -/
def read_from {T : Type} (E : Env T) (b : stretch_buffer T) (first : Nat) :
    Nat → Option (List (Slot T))
  | 0 => some []
  | n + 1 =>
    (b.load E first).bind
      (fun x => (read_from E b ((first + E.elem_size) % SIZE_MOD) n).map (fun xs => x :: xs))

/-- The range-based loop `for (TType & a : buffer)`: `begin()` and `end()` are
called once each and the pointer steps from the first until it equals the
second; when their distance is not a whole number of elements it runs off the
block. -/
def stretch_buffer.traverse {T : Type} (E : Env T) (b : stretch_buffer T) :
    Option (List (Slot T)) :=
  let r1 := b.begin
  let r2 := r1.2.end_ E
  let distance := (r2.1 + SIZE_MOD - r1.1) % SIZE_MOD
  if distance % E.elem_size = 0 then
    read_from E r2.2 r1.1 (distance / E.elem_size)
  else
    none

/-- One call on a buffer made by client code. -/
inductive Call (T : Type) where
  | push_back (value : T) : Call T
  | index_assign (index : Nat) (value : T) : Call T
  | at_assign (index : Nat) (value : T) : Call T
  | size : Call T
  | begin : Call T
  | end_ : Call T
  deriving DecidableEq, Repr

/-- Effect of one client call on the buffer: `push_back(value)`,
`buffer[index] = value`, `buffer.at(index) = value`, `size()`, `begin()`,
`end()`. The result is `none` when the call has undefined behaviour or
throws. -/
def stretch_buffer.call {T : Type} (E : Env T) (b : stretch_buffer T) :
    Call T → Option (stretch_buffer T)
  | Call.push_back value => b.push_back E value
  | Call.index_assign index value => b.store E (b.operator_index E index) value
  | Call.at_assign index value =>
    match b.at_ E index with
    | Except.ok target => b.store E target value
    | Except.error _ => none
  | Call.size => some (b.size E).2
  | Call.begin => some b.begin.2
  | Call.end_ => some (b.end_ E).2

/-- A finite sequence of client calls, in order. -/
def stretch_buffer.calls {T : Type} (E : Env T) (b : stretch_buffer T) :
    List (Call T) → Option (stretch_buffer T)
  | [] => some b
  | c :: cs => (b.call E c).bind (fun b1 => b1.calls E cs)

/-- The representation invariant of a buffer whose last allocation was
granted in full: the block is `capacity` slots wide, at most `PTRDIFF_MAX`
bytes, inside the address space, and `data_end` is `data + capacity`. -/
def stretch_buffer.WF {T : Type} (E : Env T) (b : stretch_buffer T) : Prop :=
  b.block.length = b.capacity ∧
  E.elem_size * b.capacity ≤ PTRDIFF_MAX ∧
  b.data + E.elem_size * b.capacity < SIZE_MOD ∧
  b.data_end = b.data + E.elem_size * b.capacity

instance {T : Type} (E : Env T) (b : stretch_buffer T) : Decidable (b.WF E) := by
  unfold stretch_buffer.WF
  infer_instance

/-- The initialiser of the local `size_t new_capacity` in `push_back`:
`capacity + capacity/2` in `size_t` arithmetic. -/
def new_capacity (capacity : Nat) : Nat :=
  (capacity + capacity / 2) % SIZE_MOD

/-- Number of whole elements in the block that `reallocate(new_size)` obtains:
the byte count `sizeof(TType)*new_size` is computed in `size_t`, and a request
above `PTRDIFF_MAX` is refused. -/
def region_width {T : Type} (E : Env T) (new_size : Nat) : Nat :=
  if (E.elem_size * new_size) % SIZE_MOD ≤ PTRDIFF_MAX then
    (E.elem_size * new_size) % SIZE_MOD / E.elem_size
  else
    0

/-- The shape `reallocate` leaves behind, whatever it was asked for: the block
holds `region_width` slots and lies inside the address space, and `data_end`
is the pointer `data + capacity`. -/
def stretch_buffer.Shaped {T : Type} (E : Env T) (b : stretch_buffer T) : Prop :=
  b.block.length = region_width E b.capacity ∧
  b.data + E.elem_size * b.block.length < SIZE_MOD ∧
  b.data_end = (b.data + E.elem_size * b.capacity) % SIZE_MOD ∧
  b.capacity < SIZE_MOD

/-- Scope in which the count and capacity invariants are proved: element
types of 1, 2 or 4 bytes, or a capacity whose byte size `realloc` grants. -/
def stretch_buffer.InScope {T : Type} (E : Env T) (b : stretch_buffer T) : Prop :=
  (E.elem_size = 1 ∨ E.elem_size = 2 ∨ E.elem_size = 4) ∨
    E.elem_size * b.capacity ≤ PTRDIFF_MAX

theorem realloc_length {T : Type} (E : Env T) (ptr : Nat) (block : List (Slot T))
    (byte_size : Nat) :
    (realloc E ptr block byte_size).2.length =
      if byte_size ≤ PTRDIFF_MAX then byte_size / E.elem_size else 0 := by
  unfold realloc
  split
  · simp only [List.length_append, List.length_take, List.length_replicate]
    omega
  · rfl

theorem reallocate_block_length {T : Type} (E : Env T) (b : stretch_buffer T) (n : Nat) :
    (b.reallocate E n).block.length = region_width E n := by
  simp only [stretch_buffer.reallocate, region_width]
  exact realloc_length E _ _ _

theorem reallocate_block_fits {T : Type} (E : Env T) (b : stretch_buffer T) (n : Nat) :
    (b.reallocate E n).data + E.elem_size * (b.reallocate E n).block.length < SIZE_MOD := by
  rw [reallocate_block_length]
  simp only [stretch_buffer.reallocate, realloc, region_width]
  split
  · rename_i h
    have h1 := E.place_fits b.data _ h
    have h2 : E.elem_size * (E.elem_size * n % SIZE_MOD / E.elem_size) ≤
        E.elem_size * n % SIZE_MOD := Nat.mul_div_le _ _
    simp only
    omega
  · simp [SIZE_MOD]

theorem reallocate_shaped {T : Type} (E : Env T) (b : stretch_buffer T) (n : Nat)
    (hn : n < SIZE_MOD) : (b.reallocate E n).Shaped E :=
  ⟨reallocate_block_length E b n, reallocate_block_fits E b n, rfl, hn⟩

/-- A request that `realloc` grants in full: the byte count does not wrap and
the block holds exactly `n` elements. -/
theorem region_width_granted {T : Type} (E : Env T) (n : Nat)
    (h : E.elem_size * n ≤ PTRDIFF_MAX) : region_width E n = n := by
  have hlt : E.elem_size * n < SIZE_MOD := by
    simp only [PTRDIFF_MAX, SIZE_MOD] at *
    omega
  simp only [region_width, Nat.mod_eq_of_lt hlt, h, if_true]
  exact Nat.mul_div_cancel_left n E.elem_size_pos

theorem reallocate_block_granted {T : Type} (E : Env T) (b : stretch_buffer T) (n : Nat)
    (h : E.elem_size * n ≤ PTRDIFF_MAX) :
    (b.reallocate E n).block =
      b.block.take n ++ List.replicate (n - b.block.length) Slot.indeterminate := by
  have hlt : E.elem_size * n < SIZE_MOD := by
    simp only [PTRDIFF_MAX, SIZE_MOD] at *
    omega
  simp only [stretch_buffer.reallocate, realloc, Nat.mod_eq_of_lt hlt, h, if_true,
    Nat.mul_div_cancel_left n E.elem_size_pos]

theorem reallocate_wf {T : Type} (E : Env T) (b : stretch_buffer T) (n : Nat)
    (h : E.elem_size * n ≤ PTRDIFF_MAX) : (b.reallocate E n).WF E := by
  have hlen : (b.reallocate E n).block.length = n := by
    rw [reallocate_block_length, region_width_granted E n h]
  have hfit := reallocate_block_fits E b n
  rw [hlen] at hfit
  refine ⟨hlen, h, hfit, ?_⟩
  show ((b.reallocate E n).data + E.elem_size * n) % SIZE_MOD = _
  exact Nat.mod_eq_of_lt hfit

theorem ctor_eq {T : Type} (E : Env T) (s : Nat) :
    (stretch_buffer.ctor E s : stretch_buffer T) =
      { (({ count := 0, capacity := 0, data := 0, data_end := 0, block := [] } :
          stretch_buffer T).reallocate E (max s 2)) with count := s } := by
  have h : (if s < 2 then 2 else s) = max s 2 := by
    split <;> omega
  simp only [stretch_buffer.ctor, h]

theorem ctor_count {T : Type} (E : Env T) (s : Nat) :
    (stretch_buffer.ctor E s : stretch_buffer T).count = s := by
  rw [ctor_eq]

theorem ctor_capacity {T : Type} (E : Env T) (s : Nat) :
    (stretch_buffer.ctor E s : stretch_buffer T).capacity = max s 2 := by
  rw [ctor_eq]
  rfl

theorem ctor_shaped {T : Type} (E : Env T) (s : Nat) (hs : s < SIZE_MOD) :
    (stretch_buffer.ctor E s : stretch_buffer T).Shaped E := by
  rw [ctor_eq]
  have h := reallocate_shaped E
    ({ count := 0, capacity := 0, data := 0, data_end := 0, block := [] } : stretch_buffer T)
    (max s 2) (by simp only [SIZE_MOD] at *; omega)
  exact h

theorem ctor_wf {T : Type} (E : Env T) (s : Nat)
    (h : E.elem_size * max s 2 ≤ PTRDIFF_MAX) :
    (stretch_buffer.ctor E s : stretch_buffer T).WF E := by
  rw [ctor_eq]
  exact reallocate_wf E _ _ h

theorem ctor_block {T : Type} (E : Env T) (s : Nat)
    (h : E.elem_size * max s 2 ≤ PTRDIFF_MAX) :
    (stretch_buffer.ctor E s : stretch_buffer T).block =
      List.replicate (max s 2) Slot.indeterminate := by
  rw [ctor_eq]
  show (stretch_buffer.reallocate E _ (max s 2)).block = _
  rw [reallocate_block_granted E _ _ h]
  simp

/-- The pointer `data + i` addresses slot `i` when that slot exists and the
block lies inside the address space. -/
theorem slot_of_index {T : Type} (E : Env T) (b : stretch_buffer T) (i : Nat)
    (hfit : b.data + E.elem_size * b.block.length < SIZE_MOD) (hi : i < b.block.length) :
    b.slot_of E ((b.data + E.elem_size * i) % SIZE_MOD) = some i := by
  have hmul : E.elem_size * i ≤ E.elem_size * b.block.length :=
    Nat.mul_le_mul_left _ (Nat.le_of_lt hi)
  have hlt : b.data + E.elem_size * i < SIZE_MOD := by omega
  have hsub : b.data + E.elem_size * i - b.data = E.elem_size * i := by omega
  have hdiv : E.elem_size * i / E.elem_size = i := Nat.mul_div_cancel_left i E.elem_size_pos
  simp [stretch_buffer.slot_of, Nat.mod_eq_of_lt hlt, hsub, hdiv, hi]

theorem slot_of_some {T : Type} (E : Env T) (b : stretch_buffer T) (p i : Nat)
    (h : b.slot_of E p = some i) :
    b.data ≤ p ∧ (p - b.data) % E.elem_size = 0 ∧ (p - b.data) / E.elem_size = i ∧
      i < b.block.length := by
  unfold stretch_buffer.slot_of at h
  split at h
  · rename_i hc
    simp only [Option.some.injEq] at h
    subst h
    exact ⟨hc.1, hc.2.1, rfl, hc.2.2⟩
  · cases h

theorem store_some_iff {T : Type} (E : Env T) (b b1 : stretch_buffer T) (p : Nat) (v : T) :
    b.store E p v = some b1 ↔
      ∃ i, b.slot_of E p = some i ∧
        b1 = { b with block := b.block.set i (Slot.holds v) } := by
  unfold stretch_buffer.store
  cases h : b.slot_of E p with
  | none => simp
  | some i =>
    simp only [Option.map_some', Option.some.injEq, exists_eq_left']
    exact eq_comm

theorem store_index {T : Type} (E : Env T) (b : stretch_buffer T) (i : Nat) (v : T)
    (hfit : b.data + E.elem_size * b.block.length < SIZE_MOD) (hi : i < b.block.length) :
    b.store E ((b.data + E.elem_size * i) % SIZE_MOD) v =
      some { b with block := b.block.set i (Slot.holds v) } := by
  simp [stretch_buffer.store, slot_of_index E b i hfit hi]

theorem load_index {T : Type} (E : Env T) (b : stretch_buffer T) (i : Nat)
    (hfit : b.data + E.elem_size * b.block.length < SIZE_MOD) (hi : i < b.block.length) :
    b.load E ((b.data + E.elem_size * i) % SIZE_MOD) = b.block[i]? := by
  simp [stretch_buffer.load, slot_of_index E b i hfit hi]

/-- A returning store leaves every field as it was and keeps the block's
width. -/
theorem store_fields {T : Type} (E : Env T) (b b1 : stretch_buffer T) (p : Nat) (v : T)
    (h : b.store E p v = some b1) :
    b1.count = b.count ∧ b1.capacity = b.capacity ∧ b1.data = b.data ∧
      b1.data_end = b.data_end ∧ b1.block.length = b.block.length := by
  obtain ⟨i, _, rfl⟩ := (store_some_iff E b b1 p v).1 h
  exact ⟨rfl, rfl, rfl, rfl, by simp⟩

/-- The growth branch of `push_back`, spelled out. -/
theorem push_back_full {T : Type} (E : Env T) (b : stretch_buffer T) (v : T)
    (h : (b.data + E.elem_size * b.count) % SIZE_MOD = b.data_end) :
    b.push_back E v =
      (b.reallocate E ((b.capacity + b.capacity / 2) % SIZE_MOD)).store E
        (((b.reallocate E ((b.capacity + b.capacity / 2) % SIZE_MOD)).data +
          E.elem_size * b.count) % SIZE_MOD) v := by
  simp only [stretch_buffer.push_back, h, if_true]
  rfl

/-- The other branch of `push_back`, spelled out. -/
theorem push_back_room {T : Type} (E : Env T) (b : stretch_buffer T) (v : T)
    (h : (b.data + E.elem_size * b.count) % SIZE_MOD ≠ b.data_end) :
    b.push_back E v = b.store E ((b.data + E.elem_size * b.count) % SIZE_MOD) v := by
  simp only [stretch_buffer.push_back, h, if_false]

theorem push_back_room_eq {T : Type} (E : Env T) (b : stretch_buffer T) (v : T)
    (hwf : b.WF E) (hroom : b.count < b.capacity) :
    b.push_back E v = some { b with block := b.block.set b.count (Slot.holds v) } := by
  obtain ⟨hlen, _, hfit, hend⟩ := hwf
  have hmul : E.elem_size * b.count < E.elem_size * b.capacity :=
    Nat.mul_lt_mul_of_pos_left hroom E.elem_size_pos
  have hlt : b.data + E.elem_size * b.count < SIZE_MOD := by omega
  rw [push_back_room E b v (by rw [Nat.mod_eq_of_lt hlt, hend]; omega)]
  exact store_index E b b.count v (by rw [hlen]; exact hfit) (by rw [hlen]; exact hroom)

theorem grown_bytes_fit {T : Type} (E : Env T) (c : Nat)
    (h : E.elem_size * (c + c / 2) ≤ PTRDIFF_MAX) : c + c / 2 < SIZE_MOD := by
  have h1 : c + c / 2 ≤ E.elem_size * (c + c / 2) :=
    Nat.le_mul_of_pos_left _ E.elem_size_pos
  simp only [PTRDIFF_MAX, SIZE_MOD] at *
  omega

theorem push_back_full_eq {T : Type} (E : Env T) (b : stretch_buffer T) (v : T)
    (hwf : b.WF E) (hfull : b.count = b.capacity) (hc : 2 ≤ b.capacity)
    (hbytes : E.elem_size * (b.capacity + b.capacity / 2) ≤ PTRDIFF_MAX) :
    b.push_back E v =
      some { b.reallocate E (b.capacity + b.capacity / 2) with
             block := (b.block.take (b.capacity + b.capacity / 2) ++
               List.replicate (b.capacity + b.capacity / 2 - b.block.length)
                 Slot.indeterminate).set b.count (Slot.holds v) } := by
  obtain ⟨hlen, _, hfit, hend⟩ := hwf
  have hlt : b.data + E.elem_size * b.count < SIZE_MOD := by rw [hfull]; exact hfit
  rw [push_back_full E b v (by rw [Nat.mod_eq_of_lt hlt, hend, hfull]),
    Nat.mod_eq_of_lt (grown_bytes_fit E _ hbytes)]
  have hwf1 := reallocate_wf E b _ hbytes
  have hcap1 : (b.reallocate E (b.capacity + b.capacity / 2)).capacity =
      b.capacity + b.capacity / 2 := rfl
  obtain ⟨hlen1, _, hfit1, _⟩ := hwf1
  rw [hcap1] at hlen1 hfit1
  rw [store_index E _ b.count v (by rw [hlen1]; exact hfit1) (by rw [hlen1]; omega),
    reallocate_block_granted E b _ hbytes]

/-! ### The growth step in `size_t` and pointer arithmetic

For element sizes 1, 2 and 4: when the growth test `data + count == data_end`
holds and the write through `data + count` lands in the block that
`reallocate` obtained, the sum `capacity + capacity/2` did not wrap. -/

theorem growth_arith1 (d count cap d1 len1 q : Nat)
    (hcc : count ≤ cap) (hcap : cap < 2 ^ 64)
    (htest : (d + 1 * count) % 2 ^ 64 = (d + 1 * cap) % 2 ^ 64)
    (hbs : (1 * ((cap + cap / 2) % 2 ^ 64)) % 2 ^ 64 ≤ 2 ^ 63 - 1)
    (hlen : len1 = (1 * ((cap + cap / 2) % 2 ^ 64)) % 2 ^ 64 / 1)
    (hfit : d1 + 1 * len1 < 2 ^ 64) (hq : q = (d1 + 1 * count) % 2 ^ 64) (hle : d1 ≤ q)
    (hmod : (q - d1) % 1 = 0) (hlt : (q - d1) / 1 < len1) :
    cap ≤ (cap + cap / 2) % 2 ^ 64 ∧ count ≤ (cap + cap / 2) % 2 ^ 64 := by
  have hcong : count % 18446744073709551616 = cap % 18446744073709551616 := by omega
  have he : q - d1 = 1 * (count % 18446744073709551616) := by omega
  have hslot : (q - d1) / 1 = cap % 18446744073709551616 := by omega
  rw [hslot] at hlt
  clear hslot he hmod hle hq hfit htest
  subst hlen
  by_cases hw : cap + cap / 2 < 2 ^ 64
  · omega
  · exfalso
    obtain ⟨nc, hnc⟩ : ∃ nc, (cap + cap / 2) % 2 ^ 64 = nc := ⟨_, rfl⟩
    have hnc1 : nc = cap + cap / 2 - 2 ^ 64 := by omega
    rw [hnc] at hbs hlt
    have h4 : 1 * nc % 2 ^ 64 / 1 = nc % 18446744073709551616 := by omega
    rw [h4] at hlt
    have h5 : nc % 18446744073709551616 < 9223372036854775808 := by omega
    clear hbs h4 hnc
    obtain ⟨c, hc⟩ : ∃ c, cap / 18446744073709551616 = c := ⟨_, rfl⟩
    have hc4 : c < 1 := by omega
    obtain ⟨e, he⟩ : ∃ e, nc / 18446744073709551616 = e := ⟨_, rfl⟩
    have he4 : e < 1 := by omega
    interval_cases c
    interval_cases e
    omega

theorem growth_arith2 (d count cap d1 len1 q : Nat)
    (hcc : count ≤ cap) (hcap : cap < 2 ^ 64)
    (htest : (d + 2 * count) % 2 ^ 64 = (d + 2 * cap) % 2 ^ 64)
    (hbs : (2 * ((cap + cap / 2) % 2 ^ 64)) % 2 ^ 64 ≤ 2 ^ 63 - 1)
    (hlen : len1 = (2 * ((cap + cap / 2) % 2 ^ 64)) % 2 ^ 64 / 2)
    (hfit : d1 + 2 * len1 < 2 ^ 64) (hq : q = (d1 + 2 * count) % 2 ^ 64) (hle : d1 ≤ q)
    (hmod : (q - d1) % 2 = 0) (hlt : (q - d1) / 2 < len1) :
    cap ≤ (cap + cap / 2) % 2 ^ 64 ∧ count ≤ (cap + cap / 2) % 2 ^ 64 := by
  have hcong : count % 9223372036854775808 = cap % 9223372036854775808 := by omega
  have he : q - d1 = 2 * (count % 9223372036854775808) := by omega
  have hslot : (q - d1) / 2 = cap % 9223372036854775808 := by omega
  rw [hslot] at hlt
  clear hslot he hmod hle hq hfit htest
  subst hlen
  by_cases hw : cap + cap / 2 < 2 ^ 64
  · omega
  · exfalso
    obtain ⟨nc, hnc⟩ : ∃ nc, (cap + cap / 2) % 2 ^ 64 = nc := ⟨_, rfl⟩
    have hnc1 : nc = cap + cap / 2 - 2 ^ 64 := by omega
    rw [hnc] at hbs hlt
    have h4 : 2 * nc % 2 ^ 64 / 2 = nc % 9223372036854775808 := by omega
    rw [h4] at hlt
    have h5 : nc % 9223372036854775808 < 4611686018427387904 := by omega
    clear hbs h4 hnc
    obtain ⟨c, hc⟩ : ∃ c, cap / 9223372036854775808 = c := ⟨_, rfl⟩
    have hc4 : c < 2 := by omega
    obtain ⟨e, he⟩ : ∃ e, nc / 9223372036854775808 = e := ⟨_, rfl⟩
    have he4 : e < 2 := by omega
    interval_cases c <;> interval_cases e <;> omega

theorem growth_arith4 (d count cap d1 len1 q : Nat)
    (hcc : count ≤ cap) (hcap : cap < 2 ^ 64)
    (htest : (d + 4 * count) % 2 ^ 64 = (d + 4 * cap) % 2 ^ 64)
    (hbs : (4 * ((cap + cap / 2) % 2 ^ 64)) % 2 ^ 64 ≤ 2 ^ 63 - 1)
    (hlen : len1 = (4 * ((cap + cap / 2) % 2 ^ 64)) % 2 ^ 64 / 4)
    (hfit : d1 + 4 * len1 < 2 ^ 64) (hq : q = (d1 + 4 * count) % 2 ^ 64) (hle : d1 ≤ q)
    (hmod : (q - d1) % 4 = 0) (hlt : (q - d1) / 4 < len1) :
    cap ≤ (cap + cap / 2) % 2 ^ 64 ∧ count ≤ (cap + cap / 2) % 2 ^ 64 := by
  have hcong : count % 4611686018427387904 = cap % 4611686018427387904 := by omega
  have he : q - d1 = 4 * (count % 4611686018427387904) := by omega
  have hslot : (q - d1) / 4 = cap % 4611686018427387904 := by omega
  rw [hslot] at hlt
  clear hslot he hmod hle hq hfit htest
  subst hlen
  by_cases hw : cap + cap / 2 < 2 ^ 64
  · omega
  · exfalso
    obtain ⟨nc, hnc⟩ : ∃ nc, (cap + cap / 2) % 2 ^ 64 = nc := ⟨_, rfl⟩
    have hnc1 : nc = cap + cap / 2 - 2 ^ 64 := by omega
    rw [hnc] at hbs hlt
    have h4 : 4 * nc % 2 ^ 64 / 4 = nc % 4611686018427387904 := by omega
    rw [h4] at hlt
    have h5 : nc % 4611686018427387904 < 2305843009213693952 := by omega
    clear hbs h4 hnc
    obtain ⟨c, hc⟩ : ∃ c, cap / 4611686018427387904 = c := ⟨_, rfl⟩
    have hc4 : c < 4 := by omega
    obtain ⟨e, he⟩ : ∃ e, nc / 4611686018427387904 = e := ⟨_, rfl⟩
    have he4 : e < 4 := by omega
    interval_cases c <;> interval_cases e <;> omega

theorem growth_arith (k d count cap d1 len1 q : Nat) (hk : k = 1 ∨ k = 2 ∨ k = 4)
    (hcc : count ≤ cap) (hcap : cap < 2 ^ 64)
    (htest : (d + k * count) % 2 ^ 64 = (d + k * cap) % 2 ^ 64)
    (hbs : (k * ((cap + cap / 2) % 2 ^ 64)) % 2 ^ 64 ≤ 2 ^ 63 - 1)
    (hlen : len1 = (k * ((cap + cap / 2) % 2 ^ 64)) % 2 ^ 64 / k)
    (hfit : d1 + k * len1 < 2 ^ 64) (hq : q = (d1 + k * count) % 2 ^ 64) (hle : d1 ≤ q)
    (hmod : (q - d1) % k = 0) (hlt : (q - d1) / k < len1) :
    cap ≤ (cap + cap / 2) % 2 ^ 64 ∧ count ≤ (cap + cap / 2) % 2 ^ 64 := by
  rcases hk with rfl | rfl | rfl
  · exact growth_arith1 d count cap d1 len1 q hcc hcap htest hbs hlen hfit hq hle hmod hlt
  · exact growth_arith2 d count cap d1 len1 q hcc hcap htest hbs hlen hfit hq hle hmod hlt
  · exact growth_arith4 d count cap d1 len1 q hcc hcap htest hbs hlen hfit hq hle hmod hlt

theorem store_shaped {T : Type} (E : Env T) (b b1 : stretch_buffer T) (p : Nat) (v : T)
    (hsh : b.Shaped E) (h : b.store E p v = some b1) : b1.Shaped E := by
  obtain ⟨h1, h2, h3, h4, h5⟩ := store_fields E b b1 p v h
  obtain ⟨s1, s2, s3, s4⟩ := hsh
  exact ⟨by rw [h5, h2]; exact s1, by rw [h3, h5]; exact s2, by rw [h4, h3, h2]; exact s3,
    by rw [h2]; exact s4⟩

/-- What a returning `push_back` does to the fields, in scope: the shape
survives, `count` is as before, `capacity` does not decrease and is not below
`count` afterwards. -/
theorem push_back_step {T : Type} (E : Env T) (b b1 : stretch_buffer T) (v : T)
    (hsh : b.Shaped E) (hle : b.count ≤ b.capacity) (hsc : b.InScope E)
    (h : b.push_back E v = some b1) :
    b1.Shaped E ∧ b1.InScope E ∧ b1.count = b.count ∧ b.capacity ≤ b1.capacity ∧
      b1.count ≤ b1.capacity := by
  by_cases htest : (b.data + E.elem_size * b.count) % SIZE_MOD = b.data_end
  · rw [push_back_full E b v htest] at h
    have hnc : (b.capacity + b.capacity / 2) % SIZE_MOD < SIZE_MOD :=
      Nat.mod_lt _ (by simp [SIZE_MOD])
    have hshR := reallocate_shaped E b _ hnc
    have hsh1 := store_shaped E _ b1 _ v hshR h
    obtain ⟨hcnt, hcap, _, _, _⟩ := store_fields E _ b1 _ v h
    obtain ⟨i, hslot, -⟩ := (store_some_iff E _ b1 _ v).1 h
    obtain ⟨hq1, hq2, hq3, hq4⟩ := slot_of_some E _ _ i hslot
    have hcntR : (b.reallocate E ((b.capacity + b.capacity / 2) % SIZE_MOD)).count =
        b.count := rfl
    have hcapR : (b.reallocate E ((b.capacity + b.capacity / 2) % SIZE_MOD)).capacity =
        (b.capacity + b.capacity / 2) % SIZE_MOD := rfl
    obtain ⟨r1, r2, -, -⟩ := hshR
    obtain ⟨s1, s2, s3, s4⟩ := hsh
    rw [hcapR] at r1
    rw [s3] at htest
    have hwidth : region_width E ((b.capacity + b.capacity / 2) % SIZE_MOD) ≠ 0 := by
      rw [← r1]
      omega
    have hbs : E.elem_size * ((b.capacity + b.capacity / 2) % SIZE_MOD) % SIZE_MOD ≤
        PTRDIFF_MAX := by
      by_contra hn
      exact hwidth (by unfold region_width; rw [if_neg hn])
    have hlen : (b.reallocate E ((b.capacity + b.capacity / 2) % SIZE_MOD)).block.length =
        E.elem_size * ((b.capacity + b.capacity / 2) % SIZE_MOD) % SIZE_MOD /
          E.elem_size := by
      rw [r1]
      unfold region_width
      rw [if_pos hbs]
    have key : b.capacity ≤ (b.capacity + b.capacity / 2) % SIZE_MOD ∧
        b.count ≤ (b.capacity + b.capacity / 2) % SIZE_MOD ∧
        (E.elem_size * b.capacity ≤ PTRDIFF_MAX →
          E.elem_size * ((b.capacity + b.capacity / 2) % SIZE_MOD) ≤ PTRDIFF_MAX) := by
      rcases hsc with hk | hbound
      · have hlt : (((b.reallocate E ((b.capacity + b.capacity / 2) % SIZE_MOD)).data +
            E.elem_size * b.count) % SIZE_MOD -
            (b.reallocate E ((b.capacity + b.capacity / 2) % SIZE_MOD)).data) /
            E.elem_size <
            (b.reallocate E ((b.capacity + b.capacity / 2) % SIZE_MOD)).block.length := by
          rw [hq3]
          exact hq4
        have ha := growth_arith E.elem_size b.data b.count b.capacity
          (b.reallocate E ((b.capacity + b.capacity / 2) % SIZE_MOD)).data
          (b.reallocate E ((b.capacity + b.capacity / 2) % SIZE_MOD)).block.length
          (((b.reallocate E ((b.capacity + b.capacity / 2) % SIZE_MOD)).data +
            E.elem_size * b.count) % SIZE_MOD)
          hk hle s4 htest hbs hlen r2 rfl hq1 hq2 hlt
        refine ⟨ha.1, ha.2, fun hb => ?_⟩
        have hno : b.capacity + b.capacity / 2 < SIZE_MOD := by
          have h1 : b.capacity ≤ E.elem_size * b.capacity :=
            Nat.le_mul_of_pos_left _ E.elem_size_pos
          simp only [PTRDIFF_MAX, SIZE_MOD] at *
          omega
        rw [Nat.mod_eq_of_lt hno] at hbs ⊢
        have h2 : E.elem_size * (b.capacity + b.capacity / 2) < SIZE_MOD := by
          have h3 : E.elem_size * (b.capacity / 2) ≤ E.elem_size * b.capacity :=
            Nat.mul_le_mul_left _ (Nat.div_le_self _ _)
          rw [Nat.mul_add]
          simp only [PTRDIFF_MAX, SIZE_MOD] at *
          omega
        rw [Nat.mod_eq_of_lt h2] at hbs
        exact hbs
      · have hw : region_width E b.capacity = b.capacity :=
          region_width_granted E _ hbound
        rw [s1, hw] at s2
        have hm : E.elem_size * b.count ≤ E.elem_size * b.capacity :=
          Nat.mul_le_mul_left _ hle
        rw [Nat.mod_eq_of_lt (by omega), Nat.mod_eq_of_lt s2] at htest
        have heq : b.count = b.capacity :=
          Nat.eq_of_mul_eq_mul_left E.elem_size_pos (by omega)
        have hno : b.capacity + b.capacity / 2 < SIZE_MOD := by
          have h1 : b.capacity ≤ E.elem_size * b.capacity :=
            Nat.le_mul_of_pos_left _ E.elem_size_pos
          simp only [PTRDIFF_MAX, SIZE_MOD] at *
          omega
        rw [Nat.mod_eq_of_lt hno] at hbs ⊢
        refine ⟨by omega, by omega, fun _ => ?_⟩
        have h2 : E.elem_size * (b.capacity + b.capacity / 2) < SIZE_MOD := by
          have h3 : E.elem_size * (b.capacity / 2) ≤ E.elem_size * b.capacity :=
            Nat.mul_le_mul_left _ (Nat.div_le_self _ _)
          rw [Nat.mul_add]
          simp only [PTRDIFF_MAX, SIZE_MOD] at *
          omega
        rw [Nat.mod_eq_of_lt h2] at hbs
        exact hbs
    refine ⟨hsh1, ?_, hcnt.trans hcntR, by rw [hcap, hcapR]; exact key.1,
      by rw [hcnt, hcap, hcapR, hcntR]; exact key.2.1⟩
    rcases hsc with hk | hbound
    · exact Or.inl hk
    · exact Or.inr (by rw [hcap, hcapR]; exact key.2.2 hbound)
  · rw [push_back_room E b v htest] at h
    obtain ⟨hcnt, hcap, _, _, _⟩ := store_fields E b b1 _ v h
    refine ⟨store_shaped E b b1 _ v hsh h, ?_, hcnt, by rw [hcap], by rw [hcnt, hcap]; exact hle⟩
    rcases hsc with hk | hbound
    · exact Or.inl hk
    · exact Or.inr (by rw [hcap]; exact hbound)

/-- C1 (the code departs from it): starting from `stretch_buffer<int>(0)`, the
calls `push_back(10)`, `push_back(20)`, `push_back(30)` all return, yet
afterwards `count` is `0` and `size()` returns `0`, not `3`; slot `0` holds
the last value `30` and slot `1` was never written. -/
theorem push_back_thrice_count_zero :
    push_back_all int_env (stretch_buffer.ctor int_env 0) [10, 20, 30] =
      some { count := 0, capacity := 2, data := 4096, data_end := 4104,
             block := [Slot.holds 30, Slot.indeterminate] } ∧
    (push_back_all int_env (stretch_buffer.ctor int_env 0) [10, 20, 30]).map
      (fun b => (b.size int_env).1) = some 0 ∧
    (push_back_all int_env (stretch_buffer.ctor int_env 0) [10, 20, 30]).bind
      (fun b => b.load int_env (b.operator_index int_env 0)) = some (Slot.holds 30) ∧
    (push_back_all int_env (stretch_buffer.ctor int_env 0) [10, 20, 30]).bind
      (fun b => b.load int_env (b.operator_index int_env 1)) = some Slot.indeterminate := by
  decide

/-- C2 (the code departs from it): the constructor called with
`initial_size = s` leaves `count = s` and `capacity = max s 2` (so
`capacity ≥ max s 2`), but `size()` returns `count` converted to the element
type: after `stretch_buffer<int>(2147483648)` it returns `-2147483648`, not
`2147483648`. -/
theorem ctor_count_capacity :
    (∀ (T : Type) (E : Env T) (s : Nat),
      (stretch_buffer.ctor E s).count = s ∧
      (stretch_buffer.ctor E s).capacity = max s 2 ∧
      max s 2 ≤ (stretch_buffer.ctor E s).capacity) ∧
    ((stretch_buffer.ctor int_env 2147483648).size int_env).1 = -2147483648 ∧
    ((stretch_buffer.ctor int_env 2147483648).size int_env).1 ≠ 2147483648 := by
  have hsize : ((stretch_buffer.ctor int_env 2147483648).size int_env).1 = -2147483648 := by
    show int_env.conv (stretch_buffer.ctor int_env 2147483648).count = _
    rw [ctor_count]
    decide
  refine ⟨fun T E s => ⟨ctor_count E s, ctor_capacity E s, ?_⟩, hsize, ?_⟩
  · rw [ctor_capacity]
  · rw [hsize]
    decide

/-- On a full buffer whose grown block `realloc` refuses, `push_back` writes
through a pointer derived from `NULL`. -/
theorem push_back_refused {T : Type} (E : Env T) (b : stretch_buffer T) (v : T)
    (hwf : b.WF E) (hfull : b.count = b.capacity)
    (hbytes : PTRDIFF_MAX < E.elem_size * (b.capacity + b.capacity / 2)) :
    b.push_back E v = none := by
  obtain ⟨hlen, hgr, hfit, hend⟩ := hwf
  have hlt : b.data + E.elem_size * b.count < SIZE_MOD := by rw [hfull]; exact hfit
  have hno : b.capacity + b.capacity / 2 < SIZE_MOD := by
    have h1 : b.capacity ≤ E.elem_size * b.capacity :=
      Nat.le_mul_of_pos_left _ E.elem_size_pos
    simp only [PTRDIFF_MAX, SIZE_MOD] at *
    omega
  have h2 : E.elem_size * (b.capacity + b.capacity / 2) < SIZE_MOD := by
    have h3 : E.elem_size * (b.capacity / 2) ≤ E.elem_size * b.capacity :=
      Nat.mul_le_mul_left _ (Nat.div_le_self _ _)
    rw [Nat.mul_add]
    simp only [PTRDIFF_MAX, SIZE_MOD] at *
    omega
  rw [push_back_full E b v (by rw [Nat.mod_eq_of_lt hlt, hend, hfull]),
    Nat.mod_eq_of_lt hno]
  have hw : (b.reallocate E (b.capacity + b.capacity / 2)).block.length = 0 := by
    rw [reallocate_block_length]
    unfold region_width
    rw [Nat.mod_eq_of_lt h2, if_neg (by omega)]
  cases hs : (b.reallocate E (b.capacity + b.capacity / 2)).store E
      (((b.reallocate E (b.capacity + b.capacity / 2)).data + E.elem_size * b.count) %
        SIZE_MOD) v with
  | none => rfl
  | some b1 =>
    obtain ⟨i, hslot, -⟩ := (store_some_iff E _ b1 _ v).1 hs
    obtain ⟨-, -, -, hi⟩ := slot_of_some E _ _ i hslot
    omega

/-- C3 fails as stated: after `stretch_buffer<int>(18446744073709551615)` the
buffer has `capacity = count = 18446744073709551615`, and `push_back(7)` takes
the growth branch, wraps the new capacity and writes outside any block; and on
a buffer that really holds `2305843009213693951` `int` slots, all used, the
grown block of `3458764513820540926` slots is more than `realloc` grants, so
`push_back(7)` again writes outside any block. No buffer of capacity `c + c/2`
results. -/
theorem push_back_full_beyond_limits :
    2 ≤ (stretch_buffer.ctor int_env 18446744073709551615).capacity ∧
    (stretch_buffer.ctor int_env 18446744073709551615).count =
      (stretch_buffer.ctor int_env 18446744073709551615).capacity ∧
    (stretch_buffer.ctor int_env 18446744073709551615).push_back int_env 7 = none ∧
    (stretch_buffer.ctor int_env 2305843009213693951).WF int_env ∧
    2 ≤ (stretch_buffer.ctor int_env 2305843009213693951).capacity ∧
    (stretch_buffer.ctor int_env 2305843009213693951).count =
      (stretch_buffer.ctor int_env 2305843009213693951).capacity ∧
    (stretch_buffer.ctor int_env 2305843009213693951).push_back int_env 7 = none := by
  have hwf : (stretch_buffer.ctor int_env 2305843009213693951).WF int_env :=
    ctor_wf int_env _ (by decide)
  have hcnt : (stretch_buffer.ctor int_env 2305843009213693951).count =
      (stretch_buffer.ctor int_env 2305843009213693951).capacity := by
    rw [ctor_count, ctor_capacity]
    decide
  have hcap : (stretch_buffer.ctor int_env 2305843009213693951).capacity =
      2305843009213693951 := by
    rw [ctor_capacity]
    decide
  refine ⟨by decide, by decide, by decide, hwf, by rw [hcap]; decide, hcnt, ?_⟩
  refine push_back_refused int_env _ 7 hwf hcnt ?_
  rw [hcap]
  decide

/-- C3, amended: on a buffer whose block is `capacity = c ≥ 2` slots wide,
with `count` equal to `c`, and for which the grown block of `c + c/2` elements
is at most `PTRDIFF_MAX` bytes, `push_back(v)` returns a buffer of capacity
`c + c/2` in which the slots `0 .. c-1` read as before and slot `c` holds
`v`. -/
theorem push_back_grows {T : Type} (E : Env T) (b : stretch_buffer T) (v : T)
    (hwf : b.WF E) (hc : 2 ≤ b.capacity) (hfull : b.count = b.capacity)
    (hbytes : E.elem_size * (b.capacity + b.capacity / 2) ≤ PTRDIFF_MAX) :
    ∃ b1 : stretch_buffer T,
      b.push_back E v = some b1 ∧
      b1.capacity = b.capacity + b.capacity / 2 ∧
      (∀ i, i < b.capacity →
        b1.load E (b1.operator_index E i) = b.load E (b.operator_index E i) ∧
        b.load E (b.operator_index E i) = b.block[i]?) ∧
      b1.load E (b1.operator_index E b.capacity) = some (Slot.holds v) := by
  have hpb := push_back_full_eq E b v hwf hfull hc hbytes
  obtain ⟨hlenR, -, hfitR, -⟩ := reallocate_wf E b _ hbytes
  have hcapR : (b.reallocate E (b.capacity + b.capacity / 2)).capacity =
      b.capacity + b.capacity / 2 := rfl
  rw [hcapR] at hlenR hfitR
  obtain ⟨hlen, -, hfit, -⟩ := hwf
  obtain ⟨b1, hb1⟩ : ∃ b1 : stretch_buffer T, b1 =
      { b.reallocate E (b.capacity + b.capacity / 2) with
        block := (b.block.take (b.capacity + b.capacity / 2) ++
          List.replicate (b.capacity + b.capacity / 2 - b.block.length)
            Slot.indeterminate).set b.count (Slot.holds v) } := ⟨_, rfl⟩
  rw [← hb1] at hpb
  have hdata : b1.data = (b.reallocate E (b.capacity + b.capacity / 2)).data := by rw [hb1]
  have hblock : b1.block = (b.block.take (b.capacity + b.capacity / 2) ++
      List.replicate (b.capacity + b.capacity / 2 - b.block.length)
        Slot.indeterminate).set b.count (Slot.holds v) := by rw [hb1]
  have hlen1 : b1.block.length = b.capacity + b.capacity / 2 := by
    rw [hblock]
    simp only [List.length_set, List.length_append, List.length_take, List.length_replicate]
    omega
  have hfit1 : b1.data + E.elem_size * b1.block.length < SIZE_MOD := by
    rw [hdata, hlen1]
    exact hfitR
  refine ⟨b1, hpb, by rw [hb1]; rfl, ?_, ?_⟩
  · intro i hi
    have h0 := load_index E b i (by rw [hlen]; exact hfit) (by rw [hlen]; exact hi)
    have h1 := load_index E b1 i hfit1 (by rw [hlen1]; omega)
    refine ⟨?_, h0⟩
    show b1.load E ((b1.data + E.elem_size * i) % SIZE_MOD) =
      b.load E ((b.data + E.elem_size * i) % SIZE_MOD)
    rw [h0, h1, hblock, List.getElem?_set_ne (by omega), List.getElem?_append_left (by
      simp only [List.length_take]; omega), List.getElem?_take_of_lt (by omega)]
  · have h1 := load_index E b1 b.capacity hfit1 (by rw [hlen1]; omega)
    show b1.load E ((b1.data + E.elem_size * b.capacity) % SIZE_MOD) = _
    rw [h1, hblock, hfull, List.getElem?_set_eq_of_lt _ (by
      simp only [List.length_append, List.length_take, List.length_replicate]; omega)]

theorem push_back_grows_witness :
    ∃ b1 : stretch_buffer Int,
      (stretch_buffer.ctor int_env 2).push_back int_env 7 = some b1 ∧
      b1.capacity = 3 ∧
      b1.load int_env (b1.operator_index int_env 2) = some (Slot.holds 7) := by
  obtain ⟨b1, h1, h2, _, h4⟩ :=
    push_back_grows int_env (stretch_buffer.ctor int_env 2) 7
      (by decide) (by decide) (by decide) (by decide)
  exact ⟨b1, h1, h2, h4⟩

/-- C4 (the code departs from it): on a buffer with `count < capacity`,
`push_back(v)` writes `v` into the slot at `count` and leaves the capacity
alone, but it also leaves `count` as it was: no increment takes place. -/
theorem push_back_room_keeps_count {T : Type} (E : Env T) (b : stretch_buffer T) (v : T)
    (hwf : b.WF E) (hroom : b.count < b.capacity) :
    ∃ b1 : stretch_buffer T,
      b.push_back E v = some b1 ∧
      b1.load E (b1.operator_index E b.count) = some (Slot.holds v) ∧
      b1.capacity = b.capacity ∧
      b1.count = b.count ∧
      b1.count ≠ b.count + 1 := by
  have hpb := push_back_room_eq E b v hwf hroom
  obtain ⟨hlen, -, hfit, -⟩ := hwf
  obtain ⟨b1, hb1⟩ : ∃ b1 : stretch_buffer T, b1 =
      { b with block := b.block.set b.count (Slot.holds v) } := ⟨_, rfl⟩
  rw [← hb1] at hpb
  have hdata : b1.data = b.data := by rw [hb1]
  have hblock : b1.block = b.block.set b.count (Slot.holds v) := by rw [hb1]
  have hcount : b1.count = b.count := by rw [hb1]
  have hlen1 : b1.block.length = b.capacity := by
    rw [hblock, List.length_set, hlen]
  refine ⟨b1, hpb, ?_, by rw [hb1], hcount, by omega⟩
  have h1 := load_index E b1 b.count (by rw [hdata, hlen1]; exact hfit)
    (by rw [hlen1]; exact hroom)
  show b1.load E ((b1.data + E.elem_size * b.count) % SIZE_MOD) = _
  rw [h1, hblock, List.getElem?_set_eq_of_lt _ (by rw [hlen]; exact hroom)]

theorem push_back_room_keeps_count_witness :
    ∃ b1 : stretch_buffer Int,
      (stretch_buffer.ctor int_env 0).push_back int_env 7 = some b1 ∧
      b1.count = 0 := by
  obtain ⟨b1, h1, _, _, h4, _⟩ :=
    push_back_room_keeps_count int_env (stretch_buffer.ctor int_env 0) 7
      (by decide) (by decide)
  exact ⟨b1, h1, h4⟩

theorem call_step {T : Type} (E : Env T) (b b1 : stretch_buffer T) (c : Call T)
    (hsh : b.Shaped E) (hle : b.count ≤ b.capacity) (hsc : b.InScope E)
    (h : b.call E c = some b1) :
    b1.Shaped E ∧ b1.InScope E ∧ b.capacity ≤ b1.capacity ∧ b1.count ≤ b1.capacity := by
  have stored : ∀ p v, b.store E p v = some b1 →
      b1.Shaped E ∧ b1.InScope E ∧ b.capacity ≤ b1.capacity ∧ b1.count ≤ b1.capacity := by
    intro p v hst
    obtain ⟨hcnt, hcap, _, _, _⟩ := store_fields E b b1 p v hst
    refine ⟨store_shaped E b b1 p v hsh hst, ?_, by rw [hcap], by rw [hcnt, hcap]; exact hle⟩
    rcases hsc with hk | hbound
    · exact Or.inl hk
    · exact Or.inr (by rw [hcap]; exact hbound)
  cases c with
  | push_back value =>
    obtain ⟨h1, h2, _, h4, h5⟩ := push_back_step E b b1 value hsh hle hsc h
    exact ⟨h1, h2, h4, h5⟩
  | index_assign index value => exact stored _ value h
  | at_assign index value =>
    simp only [stretch_buffer.call] at h
    split at h
    · exact stored _ value h
    · cases h
  | size =>
    simp only [stretch_buffer.call, stretch_buffer.size, Option.some.injEq] at h
    subst h
    exact ⟨hsh, hsc, Nat.le_refl _, hle⟩
  | begin =>
    simp only [stretch_buffer.call, stretch_buffer.begin, Option.some.injEq] at h
    subst h
    exact ⟨hsh, hsc, Nat.le_refl _, hle⟩
  | end_ =>
    simp only [stretch_buffer.call, stretch_buffer.end_, Option.some.injEq] at h
    subst h
    exact ⟨hsh, hsc, Nat.le_refl _, hle⟩

theorem calls_invariant {T : Type} (E : Env T) (cs : List (Call T)) :
    ∀ b b1 : stretch_buffer T, b.Shaped E → b.count ≤ b.capacity → b.InScope E →
      b.calls E cs = some b1 →
      b1.Shaped E ∧ b1.InScope E ∧ b.capacity ≤ b1.capacity ∧ b1.count ≤ b1.capacity := by
  induction cs with
  | nil =>
    intro b b1 hsh hle hsc h
    simp only [stretch_buffer.calls, Option.some.injEq] at h
    subst h
    exact ⟨hsh, hsc, Nat.le_refl _, hle⟩
  | cons c cs ih =>
    intro b b1 hsh hle hsc h
    simp only [stretch_buffer.calls] at h
    cases hc : b.call E c with
    | none => rw [hc] at h; cases h
    | some b2 =>
      rw [hc] at h
      obtain ⟨hsh2, hsc2, hcap2, hle2⟩ := call_step E b b2 c hsh hle hsc hc
      obtain ⟨hsh1, hsc1, hcap1, hle1⟩ := ih b2 b1 hsh2 hle2 hsc2 h
      exact ⟨hsh1, hsc1, Nat.le_trans hcap2 hcap1, hle1⟩

theorem push_back_all_invariant {T : Type} (E : Env T) (vs : List T) :
    ∀ b b1 : stretch_buffer T, b.Shaped E → b.count ≤ b.capacity → b.InScope E →
      push_back_all E b vs = some b1 →
      b1.Shaped E ∧ b1.InScope E ∧ b.capacity ≤ b1.capacity ∧ b1.count ≤ b1.capacity := by
  induction vs with
  | nil =>
    intro b b1 hsh hle hsc h
    simp only [push_back_all, Option.some.injEq] at h
    subst h
    exact ⟨hsh, hsc, Nat.le_refl _, hle⟩
  | cons v vs ih =>
    intro b b1 hsh hle hsc h
    simp only [push_back_all] at h
    cases hp : b.push_back E v with
    | none => rw [hp] at h; cases h
    | some b2 =>
      rw [hp] at h
      obtain ⟨hsh2, hsc2, _, hcap2, hle2⟩ := push_back_step E b b2 v hsh hle hsc hp
      obtain ⟨hsh1, hsc1, hcap1, hle1⟩ := ih b2 b1 hsh2 hle2 hsc2 h
      exact ⟨hsh1, hsc1, Nat.le_trans hcap2 hcap1, hle1⟩

theorem ctor_in_scope {T : Type} (E : Env T) (s : Nat)
    (hscope : (E.elem_size = 1 ∨ E.elem_size = 2 ∨ E.elem_size = 4) ∨
      E.elem_size * max s 2 ≤ PTRDIFF_MAX) :
    (stretch_buffer.ctor E s : stretch_buffer T).InScope E := by
  rcases hscope with hk | hbound
  · exact Or.inl hk
  · exact Or.inr (by rw [ctor_capacity]; exact hbound)

theorem ctor_count_le {T : Type} (E : Env T) (s : Nat) :
    (stretch_buffer.ctor E s : stretch_buffer T).count ≤
      (stretch_buffer.ctor E s : stretch_buffer T).capacity := by
  rw [ctor_count, ctor_capacity]
  exact le_max_left s 2

/-- C6 fails as stated for 8-byte elements: after
`stretch_buffer<long long>(13835058055282163714)` the byte count of the
request wraps to 16, the growth test of `push_back(7)` holds, the new capacity
wraps to `2305843009213693955`, the byte count of that request wraps to 24,
and the write through `data + count` lands in slot `2` of the new block: the
call returns with `count = 13835058055282163714` above `capacity`. -/
theorem count_exceeds_capacity_llong :
    (stretch_buffer.ctor llong_env 13835058055282163714).calls llong_env
        [Call.push_back 7] =
      some { count := 13835058055282163714, capacity := 2305843009213693955,
             data := 4096, data_end := 4120,
             block := [Slot.indeterminate, Slot.indeterminate, Slot.holds 7] } ∧
    ¬ (13835058055282163714 ≤ 2305843009213693955) := by
  decide

/-- C6, amended: for an element type of 1, 2 or 4 bytes and any
`initial_size`, and for any element type when the constructor's request of
`sizeof(TType) * max(initial_size, 2)` bytes is at most `PTRDIFF_MAX`, every
buffer obtained from the constructor by a finite sequence of returning calls
of `push_back`, `buffer[i] = v`, `buffer.at(i) = v`, `size()`, `begin()` and
`end()` has `0 ≤ count ≤ capacity`. -/
theorem count_le_capacity_of_calls {T : Type} (E : Env T) (s : Nat)
    (cs : List (Call T)) (b : stretch_buffer T) (hs : s < SIZE_MOD)
    (hscope : (E.elem_size = 1 ∨ E.elem_size = 2 ∨ E.elem_size = 4) ∨
      E.elem_size * max s 2 ≤ PTRDIFF_MAX)
    (h : (stretch_buffer.ctor E s).calls E cs = some b) :
    0 ≤ b.count ∧ b.count ≤ b.capacity :=
  ⟨Nat.zero_le _,
   (calls_invariant E cs _ b (ctor_shaped E s hs) (ctor_count_le E s)
     (ctor_in_scope E s hscope) h).2.2.2⟩

theorem count_le_capacity_of_calls_witness :
    (stretch_buffer.ctor int_env 2).calls int_env
        [Call.push_back 5, Call.index_assign 0 1, Call.size, Call.at_assign 2 9,
         Call.begin, Call.push_back 6, Call.end_] =
      some { count := 2, capacity := 3, data := 4096, data_end := 4108,
             block := [Slot.holds 1, Slot.indeterminate, Slot.holds 6] } ∧
    (0 ≤ 2 ∧ 2 ≤ 3) :=
  ⟨by decide,
   count_le_capacity_of_calls int_env 2
     [Call.push_back 5, Call.index_assign 0 1, Call.size, Call.at_assign 2 9,
      Call.begin, Call.push_back 6, Call.end_]
     { count := 2, capacity := 3, data := 4096, data_end := 4108,
       block := [Slot.holds 1, Slot.indeterminate, Slot.holds 6] }
     (by decide) (by decide) (by decide)⟩

/-- C7 fails as stated for 8-byte elements: after
`stretch_buffer<long long>(13835058055282163714)` the call `push_back(7)`
returns (see C6) and leaves `capacity = 2305843009213693955`, below the
capacity `13835058055282163714` the constructor set. -/
theorem capacity_decreases_llong :
    (stretch_buffer.ctor llong_env 13835058055282163714).capacity = 13835058055282163714 ∧
    push_back_all llong_env (stretch_buffer.ctor llong_env 13835058055282163714) [7] =
      some { count := 13835058055282163714, capacity := 2305843009213693955,
             data := 4096, data_end := 4120,
             block := [Slot.indeterminate, Slot.indeterminate, Slot.holds 7] } ∧
    2305843009213693955 < 13835058055282163714 := by
  decide

/-- C7, amended: for an element type of 1, 2 or 4 bytes and any
`initial_size`, and for any element type when the constructor's request of
`sizeof(TType) * max(initial_size, 2)` bytes is at most `PTRDIFF_MAX`, every
buffer obtained from the constructor by a finite sequence of returning
`push_back` calls has `capacity ≥ 2` and a capacity no smaller than the one
the constructor set, and one more returning `push_back` leaves a capacity
greater than or equal to the one before the call. -/
theorem capacity_never_decreases {T : Type} (E : Env T) (s : Nat) (vs : List T)
    (b : stretch_buffer T) (hs : s < SIZE_MOD)
    (hscope : (E.elem_size = 1 ∨ E.elem_size = 2 ∨ E.elem_size = 4) ∨
      E.elem_size * max s 2 ≤ PTRDIFF_MAX)
    (h : push_back_all E (stretch_buffer.ctor E s) vs = some b) :
    2 ≤ b.capacity ∧
    (stretch_buffer.ctor E s : stretch_buffer T).capacity ≤ b.capacity ∧
    ∀ (v : T) (b1 : stretch_buffer T), b.push_back E v = some b1 →
      b.capacity ≤ b1.capacity := by
  obtain ⟨hsh, hsc, hcap, hle⟩ := push_back_all_invariant E vs _ b (ctor_shaped E s hs)
    (ctor_count_le E s) (ctor_in_scope E s hscope) h
  refine ⟨?_, hcap, ?_⟩
  · rw [ctor_capacity] at hcap
    omega
  · intro v b1 hb1
    exact (push_back_step E b b1 v hsh hle hsc hb1).2.2.2.1

theorem capacity_never_decreases_witness :
    push_back_all int_env (stretch_buffer.ctor int_env 2) [4, 5] =
      some { count := 2, capacity := 3, data := 4096, data_end := 4108,
             block := [Slot.indeterminate, Slot.indeterminate, Slot.holds 5] } ∧
    2 ≤ 3 ∧ (stretch_buffer.ctor int_env 2).capacity ≤ 3 :=
  ⟨by decide,
   (capacity_never_decreases int_env 2 [4, 5]
     { count := 2, capacity := 3, data := 4096, data_end := 4108,
       block := [Slot.indeterminate, Slot.indeterminate, Slot.holds 5] }
     (by decide) (by decide) (by decide)).1,
   (capacity_never_decreases int_env 2 [4, 5]
     { count := 2, capacity := 3, data := 4096, data_end := 4108,
       block := [Slot.indeterminate, Slot.indeterminate, Slot.holds 5] }
     (by decide) (by decide) (by decide)).2.1⟩

theorem fill_by_index_succ {T : Type} (E : Env T) (f : Nat → T) (b : stretch_buffer T)
    (first n : Nat) :
    fill_by_index E f b first (n + 1) =
      (b.store E (b.operator_index E first) (f first)).bind
        (fun b1 => fill_by_index E f b1 (first + 1) n) := rfl

theorem fill_by_index_spec {T : Type} (E : Env T) (f : Nat → T) (n : Nat) :
    ∀ (first : Nat) (b : stretch_buffer T),
      b.data + E.elem_size * b.block.length < SIZE_MOD → first + n ≤ b.block.length →
      ∃ b1 : stretch_buffer T,
        fill_by_index E f b first n = some b1 ∧
        b1.count = b.count ∧ b1.capacity = b.capacity ∧ b1.data = b.data ∧
        b1.block.length = b.block.length ∧
        (∀ i, first ≤ i → i < first + n → b1.block[i]? = some (Slot.holds (f i))) ∧
        (∀ i, i < first → b1.block[i]? = b.block[i]?) := by
  induction n with
  | zero =>
    intro first b _ _
    exact ⟨b, rfl, rfl, rfl, rfl, rfl, fun i h1 h2 => by omega, fun _ _ => rfl⟩
  | succ n ih =>
    intro first b hfit hlen
    have hlt : first < b.block.length := by omega
    obtain ⟨b1, h1, hcnt, hcap, hdata, hl, hin, hout⟩ :=
      ih (first + 1) { b with block := b.block.set first (Slot.holds (f first)) }
        (by simp only [List.length_set]; exact hfit)
        (by simp only [List.length_set]; omega)
    refine ⟨b1, ?_, hcnt, hcap, hdata, by simpa using hl, ?_, ?_⟩
    · simp only [fill_by_index, stretch_buffer.operator_index]
      rw [store_index E b first (f first) hfit hlt]
      exact h1
    · intro i hi1 hi2
      by_cases hi : i = first
      · subst hi
        rw [hout i (by omega)]
        exact List.getElem?_set_eq_of_lt _ hlt
      · exact hin i (by omega) (by omega)
    · intro i hi
      rw [hout i (by omega)]
      exact List.getElem?_set_ne (by omega)

theorem read_from_spec {T : Type} (E : Env T) (b : stretch_buffer T) (g : Nat → Slot T)
    (hfit : b.data + E.elem_size * b.block.length < SIZE_MOD) (n : Nat) :
    ∀ first : Nat, first + n ≤ b.block.length →
      (∀ i, first ≤ i → i < first + n → b.block[i]? = some (g i)) →
      read_from E b ((b.data + E.elem_size * first) % SIZE_MOD) n =
        some ((List.range' first n).map g) := by
  induction n with
  | zero => intro first _ _; rfl
  | succ n ih =>
    intro first hlen h
    have hlt : first < b.block.length := by omega
    have hmul : E.elem_size * (first + 1) ≤ E.elem_size * b.block.length :=
      Nat.mul_le_mul_left _ (by omega)
    have hnext : ((b.data + E.elem_size * first) % SIZE_MOD + E.elem_size) % SIZE_MOD =
        (b.data + E.elem_size * (first + 1)) % SIZE_MOD := by
      rw [Nat.mul_succ] at hmul ⊢
      have hin : b.data + E.elem_size * first < SIZE_MOD := by omega
      rw [Nat.mod_eq_of_lt hin, Nat.add_assoc]
    have h0 := h first (Nat.le_refl _) (by omega)
    have h1 := ih (first + 1) (by omega) (fun i hi1 hi2 => h i (by omega) (by omega))
    simp only [read_from, load_index E b first hfit hlt, h0, hnext, h1, Option.some_bind,
      Option.map_some', List.range'_succ, List.map_cons]

/-- C8 fails as stated at `initial_size = 4611686018427387904` for `int`: the
byte count of the constructor's request wraps to `0`, the block holds no
element, and the first write `buffer[0] = f(0)` of the fill loop is outside
it. -/
theorem fill_outside_block :
    (stretch_buffer.ctor int_env 4611686018427387904).count = 4611686018427387904 ∧
    (stretch_buffer.ctor int_env 4611686018427387904).block = [] ∧
    fill_by_index int_env (fun i => (i : Int) * 2)
      (stretch_buffer.ctor int_env 4611686018427387904) 0 4611686018427387904 = none := by
  refine ⟨by decide, by decide, ?_⟩
  have hslot : (stretch_buffer.ctor int_env 4611686018427387904).slot_of int_env
      ((stretch_buffer.ctor int_env 4611686018427387904).operator_index int_env 0) = none := by
    decide
  have hstep := fill_by_index_succ int_env (fun i => (i : Int) * 2)
    (stretch_buffer.ctor int_env 4611686018427387904) 0 4611686018427387903
  simp only [stretch_buffer.store, hslot, Option.map_none', Option.none_bind] at hstep
  exact hstep

/-- C8, amended: for every `initial_size = s` whose request of
`sizeof(TType) * max(s, 2)` bytes is at most `PTRDIFF_MAX`, and every `f`,
after the constructor and the loop `buffer[i] = f(i)` for `i` in `[0, s)`
(which returns), the traversal from `begin()` to `end()` visits exactly `s`
slots and they hold `f(0), f(1), ..., f(s-1)` in that order; `end() - begin()`
equals `count` elements. -/
theorem traverse_after_fill {T : Type} (E : Env T) (s : Nat) (f : Nat → T)
    (hbytes : E.elem_size * max s 2 ≤ PTRDIFF_MAX) :
    ∃ b : stretch_buffer T,
      fill_by_index E f (stretch_buffer.ctor E s) 0 s = some b ∧
      b.traverse E = some ((List.range s).map (fun i => Slot.holds (f i))) ∧
      ((List.range s).map (fun i => Slot.holds (f i))).length = s ∧
      ((b.end_ E).1 - b.begin.1) / E.elem_size = b.count ∧
      b.count = s := by
  obtain ⟨hlen, -, hfit, -⟩ := ctor_wf E s hbytes
  rw [ctor_capacity] at hlen hfit
  have hcount : (stretch_buffer.ctor E s : stretch_buffer T).count = s := ctor_count E s
  obtain ⟨b, hb, hcnt, _, hdata, hl, hin, _⟩ :=
    fill_by_index_spec E f s 0 (stretch_buffer.ctor E s : stretch_buffer T)
      (by rw [hlen]; exact hfit) (by rw [hlen]; omega)
  have hbs : b.count = s := by rw [hcnt, hcount]
  have hfitb : b.data + E.elem_size * b.block.length < SIZE_MOD := by
    rw [hdata, hl, hlen]
    exact hfit
  have hmul : E.elem_size * s ≤ E.elem_size * max s 2 :=
    Nat.mul_le_mul_left _ (le_max_left s 2)
  have hend : (b.data + E.elem_size * b.count) % SIZE_MOD = b.data + E.elem_size * s := by
    rw [hbs, Nat.mod_eq_of_lt (by rw [hdata]; omega)]
  have hdist : (b.data + E.elem_size * s + SIZE_MOD - b.data) % SIZE_MOD =
      E.elem_size * s := by
    have h1 : b.data + E.elem_size * s + SIZE_MOD - b.data = E.elem_size * s + SIZE_MOD := by
      omega
    rw [h1, Nat.add_mod_right, Nat.mod_eq_of_lt (by rw [hdata] at hfitb; omega)]
  have hread := read_from_spec E b (fun i => Slot.holds (f i)) hfitb s 0
    (by rw [hl, hlen]; omega) (fun i hi1 hi2 => hin i hi1 (by omega))
  rw [Nat.mul_zero, Nat.add_zero, Nat.mod_eq_of_lt (by omega)] at hread
  refine ⟨b, hb, ?_, by simp, ?_, hbs⟩
  · simp only [stretch_buffer.traverse, stretch_buffer.begin, stretch_buffer.end_, hend, hdist,
      Nat.mul_mod_right, if_true, Nat.mul_div_cancel_left s E.elem_size_pos]
    rw [hread, List.range_eq_range']
  · simp only [stretch_buffer.end_, stretch_buffer.begin, hend]
    rw [Nat.add_sub_cancel_left, Nat.mul_div_cancel_left s E.elem_size_pos, hbs]

theorem traverse_after_fill_witness :
    int_env.elem_size * max 1000 2 ≤ PTRDIFF_MAX ∧
    ∃ b : stretch_buffer Int,
      fill_by_index int_env (fun i => (i : Int) * 2) (stretch_buffer.ctor int_env 1000) 0 1000 =
        some b ∧
      b.traverse int_env =
        some ((List.range 1000).map (fun (i : Nat) => Slot.holds ((i : Int) * 2))) ∧
      b.count = 1000 := by
  refine ⟨by decide, ?_⟩
  obtain ⟨b, h1, h2, _, _, h5⟩ :=
    traverse_after_fill int_env 1000 (fun i => (i : Int) * 2) (by decide)
  exact ⟨b, h1, h2, h5⟩

/-- C9 fails as stated: on a buffer holding the three `int` slots `5, 6, 7`,
`reallocate(4611686018427387905)` sets the capacity as asked, but the byte
count of the request wraps to `4`, the block shrinks to one slot, and slot `1`
(an index below both capacities) no longer reads `6`: it is outside the
block. -/
theorem reallocate_wrapped_request :
    ({ count := 3, capacity := 3, data := 4096, data_end := 4108,
       block := [Slot.holds 5, Slot.holds 6, Slot.holds 7] } : stretch_buffer Int).WF
      int_env ∧
    (({ count := 3, capacity := 3, data := 4096, data_end := 4108,
        block := [Slot.holds 5, Slot.holds 6, Slot.holds 7] } : stretch_buffer Int).reallocate
      int_env 4611686018427387905) =
      { count := 3, capacity := 4611686018427387905, data := 4096, data_end := 4100,
        block := [Slot.holds 5] } ∧
    1 < min 3 4611686018427387905 ∧
    ({ count := 3, capacity := 3, data := 4096, data_end := 4108,
       block := [Slot.holds 5, Slot.holds 6, Slot.holds 7] } : stretch_buffer Int).load
      int_env 4100 = some (Slot.holds 6) ∧
    ({ count := 3, capacity := 4611686018427387905, data := 4096, data_end := 4100,
       block := [Slot.holds 5] } : stretch_buffer Int).load int_env 4100 = none := by
  decide

/-- C9, amended: on a buffer whose block is `capacity` slots wide,
`reallocate(new_size)` with `new_size > 0` and a request of
`sizeof(TType) * new_size` bytes of at most `PTRDIFF_MAX` leaves a buffer of
capacity exactly `new_size`, with a block exactly `new_size` slots wide, in
which every slot `i` below `min old_capacity new_size` reads as it did before
the call. -/
theorem reallocate_keeps_prefix {T : Type} (E : Env T) (b : stretch_buffer T)
    (new_size : Nat) (hwf : b.WF E) (_hpos : 0 < new_size)
    (hbytes : E.elem_size * new_size ≤ PTRDIFF_MAX) :
    (b.reallocate E new_size).capacity = new_size ∧
    (b.reallocate E new_size).block.length = new_size ∧
    (b.reallocate E new_size).WF E ∧
    ∀ i, i < min b.capacity new_size →
      (b.reallocate E new_size).load E ((b.reallocate E new_size).operator_index E i) =
        b.load E (b.operator_index E i) ∧
      ∃ x, b.load E (b.operator_index E i) = some x := by
  have hwfR := reallocate_wf E b new_size hbytes
  obtain ⟨hlenR, -, hfitR, -⟩ := hwfR
  have hcapR : (b.reallocate E new_size).capacity = new_size := rfl
  rw [hcapR] at hlenR hfitR
  obtain ⟨hlen, -, hfit, -⟩ := hwf
  refine ⟨rfl, hlenR, reallocate_wf E b new_size hbytes, ?_⟩
  intro i hi
  have hi1 : i < b.block.length := by omega
  have h0 := load_index E b i (by rw [hlen]; exact hfit) hi1
  have h1 := load_index E (b.reallocate E new_size) i (by rw [hlenR]; exact hfitR)
    (by rw [hlenR]; omega)
  constructor
  · show (b.reallocate E new_size).load E
        (((b.reallocate E new_size).data + E.elem_size * i) % SIZE_MOD) =
      b.load E ((b.data + E.elem_size * i) % SIZE_MOD)
    rw [h0, h1, reallocate_block_granted E b new_size hbytes,
      List.getElem?_append_left (by simp only [List.length_take]; omega),
      List.getElem?_take_of_lt (by omega)]
  · exact ⟨b.block[i], by
      show b.load E ((b.data + E.elem_size * i) % SIZE_MOD) = _
      rw [h0]
      simp [hi1]⟩

theorem reallocate_keeps_prefix_witness :
    (({ count := 2, capacity := 3, data := 4096, data_end := 4108,
        block := [Slot.holds 5, Slot.holds 6, Slot.indeterminate] } :
        stretch_buffer Int).reallocate int_env 2).capacity = 2 ∧
    (({ count := 2, capacity := 3, data := 4096, data_end := 4108,
        block := [Slot.holds 5, Slot.holds 6, Slot.indeterminate] } :
        stretch_buffer Int).reallocate int_env 2).load int_env 4100 =
      some (Slot.holds 6) := by
  have h := reallocate_keeps_prefix int_env
    ({ count := 2, capacity := 3, data := 4096, data_end := 4108,
       block := [Slot.holds 5, Slot.holds 6, Slot.indeterminate] } : stretch_buffer Int) 2
    (by decide) (by decide) (by decide)
  exact ⟨h.1, (h.2.2.2 1 (by decide)).1.trans (by decide)⟩

/-- C10 (the code departs from it): `size()` returns `count` converted to the
element type, which is not `count` for every value of `count`: on the buffer
built by `stretch_buffer<unsigned char>(256)` the field `count` is `256` and
`size()` returns `0`; on the buffer built by `stretch_buffer<int>(2147483648)`
the field `count` is `2147483648` and `size()` returns `-2147483648`. -/
theorem size_converts_count :
    (∀ (T : Type) (E : Env T) (b : stretch_buffer T), (b.size E).1 = E.conv b.count) ∧
    (stretch_buffer.ctor uchar_env 256).count = 256 ∧
    ((stretch_buffer.ctor uchar_env 256).size uchar_env).1 = 0 ∧
    (stretch_buffer.ctor int_env 2147483648).count = 2147483648 ∧
    ((stretch_buffer.ctor int_env 2147483648).size int_env).1 = -2147483648 := by
  refine ⟨fun _ _ _ => rfl, ctor_count _ _, ?_, ctor_count _ _, ?_⟩
  · show uchar_env.conv (stretch_buffer.ctor uchar_env 256).count = _
    rw [ctor_count]
    decide
  · show int_env.conv (stretch_buffer.ctor int_env 2147483648).count = _
    rw [ctor_count]
    decide

/-- C11: `size()`, `begin()` and `end()` hand back the buffer they were called
on, with `count`, `capacity`, `data`, `data_end` and every slot as before, so
a second call right after the first returns the same result as the first. -/
theorem observers_keep_state {T : Type} (E : Env T) (b : stretch_buffer T) :
    (b.size E).2 = b ∧ b.begin.2 = b ∧ (b.end_ E).2 = b ∧
    ((b.size E).2.size E).1 = (b.size E).1 ∧
    (b.begin.2.begin).1 = b.begin.1 ∧
    ((b.end_ E).2.end_ E).1 = (b.end_ E).1 ∧
    (b.begin.2.end_ E).1 = (b.end_ E).1 ∧
    ((b.end_ E).2.begin).1 = b.begin.1 :=
  ⟨rfl, rfl, rfl, rfl, rfl, rfl, rfl, rfl⟩

/-- C12 (the code departs from it): `stretch_buffer<int>(0)` has capacity `2`,
but the calls `push_back(0)`, `push_back(1)`, `push_back(2)` never reach the
growth branch: before the third call `count` is `0`, not `2`, and after it the
buffer has `count = 0`, `capacity = 2`, slot `0` holding `2` and slot `1`
never written, instead of contents `[0, 1, 2]`, capacity `3`, count `3`. -/
theorem push_back_zero_one_two :
    (stretch_buffer.ctor int_env 0).capacity = 2 ∧
    push_back_all int_env (stretch_buffer.ctor int_env 0) [0, 1] =
      some { count := 0, capacity := 2, data := 4096, data_end := 4104,
             block := [Slot.holds 1, Slot.indeterminate] } ∧
    push_back_all int_env (stretch_buffer.ctor int_env 0) [0, 1, 2] =
      some { count := 0, capacity := 2, data := 4096, data_end := 4104,
             block := [Slot.holds 2, Slot.indeterminate] } ∧
    (push_back_all int_env (stretch_buffer.ctor int_env 0) [0, 1, 2]).bind
      (fun b => b.traverse int_env) = some [] := by
  decide

/-- C15: `reallocate(new_size)` with `new_size > 0` leaves `count` as it was,
whatever `new_size` is, so `end()` is still `count` elements past the new
`data`; hence on a buffer with `count ≤ capacity` the inequality
`count ≤ capacity` holds after the call exactly when `new_size ≥ count`. -/
theorem reallocate_keeps_count {T : Type} (E : Env T) (b : stretch_buffer T)
    (new_size : Nat) (_hpos : 0 < new_size) (_hle : b.count ≤ b.capacity) :
    (b.reallocate E new_size).count = b.count ∧
    ((b.reallocate E new_size).end_ E).1 =
      ((b.reallocate E new_size).begin.1 + E.elem_size * b.count) % SIZE_MOD ∧
    ((b.reallocate E new_size).count ≤ (b.reallocate E new_size).capacity ↔
      b.count ≤ new_size) :=
  ⟨rfl, rfl, Iff.rfl⟩

theorem reallocate_keeps_count_witness :
    ((stretch_buffer.ctor int_env 3).reallocate int_env 2).count = 3 ∧
    ((stretch_buffer.ctor int_env 3).reallocate int_env 2).capacity = 2 ∧
    ¬ ((stretch_buffer.ctor int_env 3).reallocate int_env 2).count ≤
        ((stretch_buffer.ctor int_env 3).reallocate int_env 2).capacity := by
  have h := reallocate_keeps_count int_env (stretch_buffer.ctor int_env 3) 2
    (by decide) (by decide)
  refine ⟨h.1.trans (by decide), by decide, ?_⟩
  rw [h.2.2]
  decide

/-- With room left, a run of `push_back` calls writes every value into the
same slot, so only the last one survives. -/
theorem push_back_all_room {T : Type} (E : Env T) (ws : List T) :
    ∀ (b : stretch_buffer T) (w : T), b.WF E → b.count < b.capacity →
      push_back_all E b (ws ++ [w]) =
        some { b with block := b.block.set b.count (Slot.holds w) } := by
  induction ws with
  | nil =>
    intro b w hwf hroom
    simp [push_back_all, push_back_room_eq E b w hwf hroom]
  | cons x ws ih =>
    intro b w hwf hroom
    have hwf1 : ({ b with block := b.block.set b.count (Slot.holds x) } :
        stretch_buffer T).WF E :=
      ⟨by simpa using hwf.1, hwf.2.1, hwf.2.2.1, hwf.2.2.2⟩
    have h1 := ih { b with block := b.block.set b.count (Slot.holds x) } w hwf1 hroom
    have hstep : push_back_all E b (x :: ws ++ [w]) =
        (b.push_back E x).bind (fun b1 => push_back_all E b1 (ws ++ [w])) := rfl
    rw [hstep, push_back_room_eq E b x hwf hroom, Option.some_bind, h1]
    simp [List.set_set]

/-- A run of `push_back` calls ends in the state that the last call alone
produces. -/
theorem push_back_all_last {T : Type} (E : Env T) (b : stretch_buffer T) (vs : List T)
    (v : T) (hwf : b.WF E)
    (h : b.count < b.capacity ∨
      (b.count = b.capacity ∧ 2 ≤ b.capacity ∧
        E.elem_size * (b.capacity + b.capacity / 2) ≤ PTRDIFF_MAX)) :
    push_back_all E b (vs ++ [v]) = b.push_back E v := by
  rcases h with hroom | ⟨hfull, hc, hbytes⟩
  · rw [push_back_all_room E vs b v hwf hroom, push_back_room_eq E b v hwf hroom]
  · cases vs with
    | nil => simp [push_back_all]
    | cons x ws =>
      have hstep : push_back_all E b (x :: ws ++ [v]) =
          (b.push_back E x).bind (fun b1 => push_back_all E b1 (ws ++ [v])) := rfl
      obtain ⟨hlenR, hgrR, hfitR, hendR⟩ := reallocate_wf E b _ hbytes
      have hcapR : (b.reallocate E (b.capacity + b.capacity / 2)).capacity =
          b.capacity + b.capacity / 2 := rfl
      have hblockR := reallocate_block_granted E b _ hbytes
      have hwf1 :
          ({ b.reallocate E (b.capacity + b.capacity / 2) with
             block := (b.block.take (b.capacity + b.capacity / 2) ++
               List.replicate (b.capacity + b.capacity / 2 - b.block.length)
                 Slot.indeterminate).set b.count (Slot.holds x) } : stretch_buffer T).WF E :=
        ⟨by simp only [List.length_set]; rw [← hblockR]; exact hlenR, hgrR, hfitR, hendR⟩
      have hroom1 : b.count < b.capacity + b.capacity / 2 := by omega
      rw [hstep, push_back_full_eq E b x hwf hfull hc hbytes, Option.some_bind,
        push_back_all_room E ws _ v hwf1 hroom1, push_back_full_eq E b v hwf hfull hc hbytes]
      have hcntR : (b.reallocate E (b.capacity + b.capacity / 2)).count = b.count := rfl
      simp [List.set_set, hcntR]

/-- The state a returning `push_back` leaves, read slot by slot. -/
theorem push_back_result {T : Type} (E : Env T) (b : stretch_buffer T) (v : T)
    (hwf : b.WF E)
    (h : b.count < b.capacity ∨
      (b.count = b.capacity ∧ 2 ≤ b.capacity ∧
        E.elem_size * (b.capacity + b.capacity / 2) ≤ PTRDIFF_MAX)) :
    ∃ b1 : stretch_buffer T,
      b.push_back E v = some b1 ∧
      b1.WF E ∧
      b1.count = b.count ∧
      b1.load E (b1.operator_index E b.count) = some (Slot.holds v) ∧
      (∀ i, i < b.count →
        b1.load E (b1.operator_index E i) = b.load E (b.operator_index E i)) ∧
      b1.capacity = (if b.count < b.capacity then b.capacity
        else b.capacity + b.capacity / 2) := by
  have hwf0 := hwf
  obtain ⟨hlen, hgr, hfit, hend⟩ := hwf
  rcases h with hroom | ⟨hfull, hc, hbytes⟩
  · have hpb := push_back_room_eq E b v hwf0 hroom
    obtain ⟨b1, hb1⟩ : ∃ b1 : stretch_buffer T, b1 =
        { b with block := b.block.set b.count (Slot.holds v) } := ⟨_, rfl⟩
    rw [← hb1] at hpb
    have hdata : b1.data = b.data := by rw [hb1]
    have hblock : b1.block = b.block.set b.count (Slot.holds v) := by rw [hb1]
    have hlen1 : b1.block.length = b.capacity := by rw [hblock, List.length_set, hlen]
    have hfit1 : b1.data + E.elem_size * b1.block.length < SIZE_MOD := by
      rw [hdata, hlen1]
      exact hfit
    have hwf1 : b1.WF E := by
      rw [hb1]
      exact ⟨by simpa using hlen, hgr, hfit, hend⟩
    refine ⟨b1, hpb, hwf1, by rw [hb1], ?_, ?_, by rw [hb1, if_pos hroom]⟩
    · have h1 := load_index E b1 b.count hfit1 (by rw [hlen1]; exact hroom)
      show b1.load E ((b1.data + E.elem_size * b.count) % SIZE_MOD) = _
      rw [h1, hblock, List.getElem?_set_eq_of_lt _ (by rw [hlen]; exact hroom)]
    · intro i hi
      have h0 := load_index E b i (by rw [hlen]; exact hfit) (by rw [hlen]; omega)
      have h1 := load_index E b1 i hfit1 (by rw [hlen1]; omega)
      show b1.load E ((b1.data + E.elem_size * i) % SIZE_MOD) =
        b.load E ((b.data + E.elem_size * i) % SIZE_MOD)
      rw [h0, h1, hblock, List.getElem?_set_ne (by omega)]
  · have hpb := push_back_full_eq E b v hwf0 hfull hc hbytes
    obtain ⟨hlenR, hgrR, hfitR, hendR⟩ := reallocate_wf E b _ hbytes
    have hcapR : (b.reallocate E (b.capacity + b.capacity / 2)).capacity =
        b.capacity + b.capacity / 2 := rfl
    have hblockR := reallocate_block_granted E b _ hbytes
    obtain ⟨b1, hb1⟩ : ∃ b1 : stretch_buffer T, b1 =
        { b.reallocate E (b.capacity + b.capacity / 2) with
          block := (b.block.take (b.capacity + b.capacity / 2) ++
            List.replicate (b.capacity + b.capacity / 2 - b.block.length)
              Slot.indeterminate).set b.count (Slot.holds v) } := ⟨_, rfl⟩
    rw [← hb1] at hpb
    have hdata : b1.data = (b.reallocate E (b.capacity + b.capacity / 2)).data := by rw [hb1]
    have hblock : b1.block = (b.block.take (b.capacity + b.capacity / 2) ++
        List.replicate (b.capacity + b.capacity / 2 - b.block.length)
          Slot.indeterminate).set b.count (Slot.holds v) := by rw [hb1]
    have hlen1 : b1.block.length = b.capacity + b.capacity / 2 := by
      rw [hblock]
      simp only [List.length_set, List.length_append, List.length_take,
        List.length_replicate]
      omega
    have hfit1 : b1.data + E.elem_size * b1.block.length < SIZE_MOD := by
      rw [hdata, hlen1]
      exact hfitR
    have hwf1 : b1.WF E := by
      rw [hb1]
      exact ⟨by simp only [List.length_set]; rw [← hblockR]; exact hlenR, hgrR, hfitR, hendR⟩
    have hnot : ¬ b.count < b.capacity := by omega
    refine ⟨b1, hpb, hwf1, by rw [hb1]; rfl, ?_, ?_, by rw [hb1, if_neg hnot]; rfl⟩
    · have h1 := load_index E b1 b.count hfit1 (by rw [hlen1]; omega)
      show b1.load E ((b1.data + E.elem_size * b.count) % SIZE_MOD) = _
      rw [h1, hblock, List.getElem?_set_eq_of_lt _ (by
        simp only [List.length_append, List.length_take, List.length_replicate]; omega)]
    · intro i hi
      have h0 := load_index E b i (by rw [hlen]; exact hfit) (by rw [hlen]; omega)
      have h1 := load_index E b1 i hfit1 (by rw [hlen1]; omega)
      show b1.load E ((b1.data + E.elem_size * i) % SIZE_MOD) =
        b.load E ((b.data + E.elem_size * i) % SIZE_MOD)
      rw [h0, h1, hblock, List.getElem?_set_ne (by omega), List.getElem?_append_left (by
        simp only [List.length_take]; omega), List.getElem?_take_of_lt (by omega)]

/-- Every sequence of `push_back` calls on a freshly constructed buffer
returns when the constructor's block and the grown block are at most
`PTRDIFF_MAX` bytes. -/
theorem push_back_all_returns {T : Type} (E : Env T) (s : Nat) (vs : List T)
    (hbytes : E.elem_size * max (s + s / 2) 2 ≤ PTRDIFF_MAX) :
    ∃ b : stretch_buffer T, push_back_all E (stretch_buffer.ctor E s) vs = some b := by
  have room : ∀ (ws : List T) (b : stretch_buffer T), b.WF E → b.count < b.capacity →
      ∃ b1 : stretch_buffer T, push_back_all E b ws = some b1 := by
    intro ws
    induction ws with
    | nil => intro b _ _; exact ⟨b, rfl⟩
    | cons w ws ih =>
      intro b hwf hlt
      obtain ⟨b2, h2, hwf2, hcnt2, _, _, hcap2⟩ := push_back_result E b w hwf (Or.inl hlt)
      rw [if_pos hlt] at hcap2
      obtain ⟨b1, h1⟩ := ih b2 hwf2 (by rw [hcnt2, hcap2]; exact hlt)
      exact ⟨b1, by simp [push_back_all, h2, h1]⟩
  have hm : E.elem_size * max s 2 ≤ E.elem_size * max (s + s / 2) 2 :=
    Nat.mul_le_mul_left _ (by omega)
  have hwf := ctor_wf (T := T) E s (Nat.le_trans hm hbytes)
  cases vs with
  | nil => exact ⟨_, rfl⟩
  | cons v vs =>
    have hpre : (stretch_buffer.ctor E s : stretch_buffer T).count <
          (stretch_buffer.ctor E s : stretch_buffer T).capacity ∨
        ((stretch_buffer.ctor E s : stretch_buffer T).count =
            (stretch_buffer.ctor E s : stretch_buffer T).capacity ∧
          2 ≤ (stretch_buffer.ctor E s : stretch_buffer T).capacity ∧
          E.elem_size * ((stretch_buffer.ctor E s : stretch_buffer T).capacity +
            (stretch_buffer.ctor E s : stretch_buffer T).capacity / 2) ≤ PTRDIFF_MAX) := by
      rw [ctor_count, ctor_capacity]
      by_cases hs : s < 2
      · left
        omega
      · right
        have h1 : max s 2 = s := by omega
        have h2 : max (s + s / 2) 2 = s + s / 2 := by omega
        rw [h1]
        rw [h2] at hbytes
        exact ⟨rfl, by omega, hbytes⟩
    obtain ⟨b2, h2, hwf2, hcnt2, _, _, hcap2⟩ := push_back_result E _ v hwf hpre
    have hlt2 : b2.count < b2.capacity := by
      rw [hcnt2, hcap2]
      split
      · assumption
      · rcases hpre with h | ⟨h1, h3, _⟩
        · omega
        · omega
    obtain ⟨b1, h1⟩ := room vs b2 hwf2 hlt2
    exact ⟨b1, by simp [push_back_all, h2, h1]⟩

/-- C14 fails as stated at `initial_size = 18446744073709551615` (`SIZE_MAX`)
for `int`: `realloc` refuses the constructor's request, the first `push_back`
takes the growth branch, the `size_t` sum wraps below `count`, and the write
falls outside any block, so no sequence of `push_back` calls returns a buffer
(none of capacity `s + s/2` with slot `s` holding the last value). -/
theorem push_back_all_at_size_max :
    2 ≤ 18446744073709551615 ∧
    18446744073709551615 < SIZE_MOD ∧
    push_back_all int_env (stretch_buffer.ctor int_env 18446744073709551615) [7] = none ∧
    push_back_all int_env (stretch_buffer.ctor int_env 18446744073709551615) [5, 6, 7] =
      none := by
  decide

/-- C14, amended: for every `initial_size = s` for which the largest block the
run asks for, `sizeof(TType) * max(s + s/2, 2)` bytes, is at most
`PTRDIFF_MAX`, and every non-empty sequence `v_1 .. v_n`, pushing them in
order onto the buffer built by `stretch_buffer(s)` returns, and returns the
state that pushing only `v_n` returns: `count` is still `s`, slot `s` holds
`v_n`, the slots `0 .. s-1` read as after construction, and the capacity is
`max s 2` when `s < 2` and `s + s/2` when `s ≥ 2`. -/
theorem push_back_all_same_as_last {T : Type} (E : Env T) (s : Nat) (vs : List T) (v : T)
    (hbytes : E.elem_size * max (s + s / 2) 2 ≤ PTRDIFF_MAX) :
    ∃ b : stretch_buffer T,
      push_back_all E (stretch_buffer.ctor E s) (vs ++ [v]) = some b ∧
      push_back_all E (stretch_buffer.ctor E s) [v] = some b ∧
      b.WF E ∧
      b.count = s ∧
      b.load E (b.operator_index E s) = some (Slot.holds v) ∧
      (∀ i, i < s →
        b.load E (b.operator_index E i) =
          (stretch_buffer.ctor E s : stretch_buffer T).load E
            ((stretch_buffer.ctor E s : stretch_buffer T).operator_index E i)) ∧
      b.capacity = (if s < 2 then max s 2 else s + s / 2) := by
  have hm : E.elem_size * max s 2 ≤ E.elem_size * max (s + s / 2) 2 :=
    Nat.mul_le_mul_left _ (by omega)
  have hwf : (stretch_buffer.ctor E s : stretch_buffer T).WF E :=
    ctor_wf E s (Nat.le_trans hm hbytes)
  have hcount : (stretch_buffer.ctor E s : stretch_buffer T).count = s := ctor_count E s
  have hcap : (stretch_buffer.ctor E s : stretch_buffer T).capacity = max s 2 :=
    ctor_capacity E s
  generalize (stretch_buffer.ctor E s : stretch_buffer T) = b0 at hwf hcount hcap ⊢
  have hpre : b0.count < b0.capacity ∨
      (b0.count = b0.capacity ∧ 2 ≤ b0.capacity ∧
        E.elem_size * (b0.capacity + b0.capacity / 2) ≤ PTRDIFF_MAX) := by
    rw [hcount, hcap]
    by_cases hs : s < 2
    · left
      omega
    · right
      have h1 : max s 2 = s := by omega
      have h2 : max (s + s / 2) 2 = s + s / 2 := by omega
      rw [h1]
      rw [h2] at hbytes
      exact ⟨rfl, by omega, hbytes⟩
  obtain ⟨b, hb, hwfb, hbc, hload, hold, hbcap⟩ := push_back_result E b0 v hwf hpre
  refine ⟨b, ?_, ?_, hwfb, ?_, ?_, ?_, ?_⟩
  · rw [push_back_all_last E b0 vs v hwf hpre, hb]
  · have h1 := push_back_all_last E b0 [] v hwf hpre
    rw [List.nil_append] at h1
    rw [h1, hb]
  · rw [hbc, hcount]
  · rw [← hcount]
    exact hload
  · intro i hi
    exact hold i (by rw [hcount]; exact hi)
  · rw [hbcap, hcount, hcap]
    by_cases hs : s < 2
    · have h1 : s < max s 2 := by omega
      rw [if_pos h1, if_pos hs]
    · have h1 : ¬ s < max s 2 := by omega
      have hm2 : max s 2 = s := by omega
      rw [if_neg h1, if_neg hs, hm2]

theorem push_back_all_same_as_last_witness :
    int_env.elem_size * max (2 + 2 / 2) 2 ≤ PTRDIFF_MAX ∧
    ∃ b : stretch_buffer Int,
      push_back_all int_env (stretch_buffer.ctor int_env 2) ([4, 5] ++ [6]) = some b ∧
      push_back_all int_env (stretch_buffer.ctor int_env 2) [6] = some b ∧
      b.count = 2 ∧
      b.load int_env (b.operator_index int_env 2) = some (Slot.holds 6) ∧
      b.capacity = 3 := by
  refine ⟨by decide, ?_⟩
  obtain ⟨b, h1, h2, _, h3, h4, _, h6⟩ :=
    push_back_all_same_as_last int_env 2 [4, 5] (6 : Int) (by decide)
  exact ⟨b, h1, h2, h3, h4, h6⟩
